import Mathlib

/-!
# lefty: retail aggregation pipeline and in-memory product store

A shallow embedding of

* `pkg/products/products.go` (the `Product` record),
* `pkg/retailer/retailer.go` (`UpdateRetailers`, `LoadProducts`,
  `loadProductsFromCategory`),
* `internal/inmem/products.go` (`ProductStore`: `FindAll`, `Upsert`, `Load`,
  `buildProductKey`),
* `pkg/retailer/musik_produktiv.go` (`MusikProduktiv`: `LoadProducts`, `parseProduct`,
  `parseProductName`, `parsePrice`, `parsePagination`).

Conventions.

* A Go method that may touch its receiver is a function that takes the receiver's
  state and returns the new state next to its results.
* A Go result `(x, err)` is the pair `(x, e)` with `e : Option Error`; `none` is the
  `nil` error.  A `nil` slice is the empty list.
* A map variable holds `none`, the `nil` map, or `some m`: reading and ranging over the
  `nil` map find nothing, assigning to an entry of it panics (`Ended.panicked`).
* `uint` is `Fin uintSize` with `uintSize = 2 ^ 64`: addition wraps modulo `2 ^ 64`.
* `float64` is `Float64` below: only its comparison is used by the code.
* Every call `r.LoadProducts(category, options)` made by the aggregation code goes
  through `Retailer.call`, which records the call and its outcome in a trace; every
  call `ps.Upsert(prds)` goes through `ProductUpserter.call` likewise.
-/

namespace Lefty

/-! ## Basic types -/

/-- A Go `error` value (its message). -/
abbrev Error := String

/-- An instant of `time.Time`; `0` is the zero value. -/
abbrev Time := Nat

/-- The number of values of Go's `uint` on the 64-bit platforms. -/
def uintSize : Nat := 18446744073709551616

instance uintSize_neZero : NeZero uintSize := ⟨by decide⟩

/-- Go's `uint`: arithmetic wraps modulo `uintSize`. -/
abbrev Uint := Fin uintSize

/-- The values of Go's `float64` up to what `<` and `<=` can tell apart: not-a-number,
the two infinities, and the finite values (every finite `float64` is a rational; both
zeros are `finite 0`). -/
inductive Float64 where
  | nan
  | negInf
  | finite (q : ℚ)
  | posInf
  deriving DecidableEq

namespace Float64

/-- Go's `x < y` on `float64`: false as soon as an operand is NaN. -/
def lt : Float64 → Float64 → Bool
  | nan, _ => false
  | _, nan => false
  | negInf, negInf => false
  | negInf, _ => true
  | finite _, negInf => false
  | finite a, finite b => decide (a < b)
  | finite _, posInf => true
  | posInf, _ => false

/-- Go's `x <= y` on `float64`: false as soon as an operand is NaN. -/
def le : Float64 → Float64 → Bool
  | nan, _ => false
  | _, nan => false
  | negInf, _ => true
  | finite _, negInf => false
  | finite a, finite b => decide (a ≤ b)
  | finite _, posInf => true
  | posInf, posInf => true
  | posInf, _ => false

/-- Go's `math.IsNaN`. -/
def isNaN : Float64 → Bool
  | nan => true
  | _ => false

end Float64

/-- Record `products.Product`.

Modelled from the spec: the fields `CreatedAt` and `UpdatedAt` (the creation and
last-update timestamps of the data model).  `ProductStore.Upsert` assigns both, but the
declaration in `pkg/products/products.go` does not list them. -/
structure Product where
  Retailer : String
  Manufacturer : String
  Model : String
  Category : String
  IsAvailable : Bool
  AvailabilityInfo : String
  Price : Float64
  ProductURL : String
  ThumbnailURL : String
  CreatedAt : Time
  UpdatedAt : Time
  deriving DecidableEq

/-- The zero value of `products.Product`. -/
def Product.zero : Product := ⟨"", "", "", "", false, "", Float64.finite 0, "", "", 0, 0⟩

/-! ## `pkg/retailer/retailer.go` -/

/-- Record `RequestOptions`. -/
structure RequestOptions where
  Page : Uint
  deriving DecidableEq

/-- Record `ProductResponse`. -/
structure ProductResponse where
  Products : List Product
  CurrentPage : Uint
  LastPage : Uint
  deriving DecidableEq

/-- Interface `Retailer`, over the state `σ` its implementations may read and write. -/
structure Retailer (σ : Type) where
  LoadProducts : String → RequestOptions → σ → (ProductResponse × Option Error) × σ
  Categories : σ → List String × σ

/-- One call of `Retailer.LoadProducts` as seen from the caller: the arguments and
what came back. -/
structure Fetch where
  category : String
  page : Uint
  resp : ProductResponse
  err : Option Error
  deriving DecidableEq

/-- The adapters' state together with the fetches issued so far, oldest first. -/
structure World (σ : Type) where
  state : σ
  fetches : List Fetch

/-- The call `r.LoadProducts(category, options)`, recorded in the trace. -/
def Retailer.call {σ : Type} (r : Retailer σ) (category : String) (options : RequestOptions)
    (w : World σ) : (ProductResponse × Option Error) × World σ :=
  let out := r.LoadProducts category options w.state
  (out.1, ⟨out.2, w.fetches ++ [⟨category, options.Page, out.1.1, out.1.2⟩]⟩)

/-- The loop `for page < resp.LastPage { ... }` of `loadProductsFromCategory`.

The first argument bounds the number of iterations still possible: it is
`uintSize - 1 - page`, the number of times `page` can be incremented before it
reaches the largest `uint`.  At `0` the page is the largest `uint`, so that
`page < resp.LastPage` is false and the loop is left (`forPages_fuel` below shows that
a larger bound changes nothing). -/
def forPages {σ : Type} (r : Retailer σ) (category : String) :
    Nat → Uint → ProductResponse → List Product → World σ →
      (List Product × Option Error) × World σ
  | 0, _, _, prds, w => ((prds, none), w)
  | fuel + 1, page, resp, prds, w =>
    if page < resp.LastPage then
      let page := page + 1
      match r.call category ⟨page⟩ w with
      | ((_, some err), w) => (([], some err), w)
      | ((resp, none), w) => forPages r category fuel page resp (prds ++ resp.Products) w
    else ((prds, none), w)

/-- Function `loadProductsFromCategory`. -/
def loadProductsFromCategory {σ : Type} (r : Retailer σ) (category : String) (w : World σ) :
    (List Product × Option Error) × World σ :=
  let page : Uint := 1
  match r.call category ⟨page⟩ w with
  | ((_, some err), w) => (([], some err), w)
  | ((resp, none), w) =>
    forPages r category (uintSize - 1 - page.val) page resp resp.Products w

/-- The loop `for _, category := range r.Categories() { ... }` of `LoadProducts`. -/
def forCategories {σ : Type} (r : Retailer σ) :
    List String → List Product → World σ → (List Product × Option Error) × World σ
  | [], prds, w => ((prds, none), w)
  | category :: rest, prds, w =>
    match loadProductsFromCategory r category w with
    | ((_, some err), w) => (([], some err), w)
    | ((categoryProducts, none), w) => forCategories r rest (prds ++ categoryProducts) w

/-- Function `LoadProducts`. -/
def LoadProducts {σ : Type} (r : Retailer σ) (w : World σ) :
    (List Product × Option Error) × World σ :=
  let cats := r.Categories w.state
  forCategories r cats.1 [] ⟨cats.2, w.fetches⟩

/-- Interface `ProductUpserter`, over the state `τ` of its implementations. -/
structure ProductUpserter (τ : Type) where
  Upsert : List Product → τ → Option Error × τ

/-- The state of the store together with the arguments of the `Upsert` calls issued so
far, oldest first. -/
structure StoreWorld (τ : Type) where
  state : τ
  upserts : List (List Product)

/-- The call `ps.Upsert(prds)`, recorded in the trace. -/
def ProductUpserter.call {τ : Type} (ps : ProductUpserter τ) (prds : List Product)
    (sw : StoreWorld τ) : Option Error × StoreWorld τ :=
  let out := ps.Upsert prds sw.state
  (out.1, ⟨out.2, sw.upserts ++ [prds]⟩)

/-- The loop `for _, r := range retailer { ... }` of `UpdateRetailers`; on an error the
function returns from inside the loop. -/
def forRetailers {σ : Type} :
    List (Retailer σ) → List Product → World σ → (List Product × Option Error) × World σ
  | [], prds, w => ((prds, none), w)
  | r :: rest, prds, w =>
    match LoadProducts r w with
    | ((_, some err), w) => (([], some err), w)
    | ((p, none), w) => forRetailers rest (prds ++ p) w

/-- Function `UpdateRetailers`. -/
def UpdateRetailers {σ τ : Type} (ps : ProductUpserter τ) (retailer : List (Retailer σ))
    (w : World σ) (sw : StoreWorld τ) : Option Error × World σ × StoreWorld τ :=
  match forRetailers retailer [] w with
  | ((_, some err), w) => (some err, w, sw)
  | ((prds, none), w) =>
    let out := ps.call prds sw
    (out.1, w, out.2)

/-! ## `internal/inmem/products.go` -/

/-- A Go `map[string]products.Product`: finitely many entries, no key twice. -/
abbrev ProductMap := AList (fun _ : String => Product)

/-- Record `ProductStore` (the mutex is not modelled: calls are taken one at a time).
The field holds `none` when the map is `nil`. -/
structure ProductStore where
  products : Option ProductMap

/-- Function `NewProductStore`: `make(map[string]products.Product)`, a map that is not
`nil`. -/
def NewProductStore : ProductStore := ⟨some ∅⟩

/-- How a call ends: it returns, with its error result, or it panics. -/
inductive Ended where
  | returned (err : Option Error)
  | panicked (msg : String)
  deriving DecidableEq

/-- The read `p.products[key]`, with its `exists` flag: the record stored under the key,
if any.  Reading the `nil` map finds nothing. -/
def ProductStore.get (p : ProductStore) (key : String) : Option Product :=
  match p.products with
  | none => none
  | some m => m.lookup key

/-- The entries that a `range` over `p.products` has to visit: none for the `nil`
map. -/
def ProductStore.entries (p : ProductStore) : List (Sigma fun _ : String => Product) :=
  match p.products with
  | none => []
  | some m => m.entries

/-- Function `buildProductKey`: `fmt.Sprintf("%s-%s-%s", ...)`. -/
def buildProductKey (p : Product) : String :=
  p.Retailer ++ "-" ++ p.Manufacturer ++ "-" ++ p.Model

/-- The inner loop of the insertion sort, `for j := i; j > a && less(j, j-1); j--`
with a swap of `j` and `j-1` as body: the element `x` at position `i` moves left past
every neighbour it is less than.  The sorted part to the left of `x` is given nearest
neighbour first, and is returned so. -/
def sinkLeft {α : Type} (less : α → α → Bool) (x : α) : List α → List α
  | [] => [x]
  | y :: ys => if less x y then y :: sinkLeft less x ys else x :: y :: ys

/-- Library function `sort.Slice(x, less)`, which is not code of this repository: modelled
by the insertion sort that the Go library runs on slices of up to twelve elements
(`insertionSortLessFunc`), `for i := a + 1; i < b; i++` around `sinkLeft`.  On longer
slices the library switches to another algorithm with the same contract. -/
def sortSlice {α : Type} (less : α → α → Bool) (x : List α) : List α :=
  (x.foldl (fun sorted e => sinkLeft less e sorted) []).reverse

/-- The order in which a `range` loop visits the entries of a map.  Go leaves it
unspecified, and it may change from one loop to the next: it is an input of the
functions that range over a map. -/
structure RangeOrder where
  visit : List (Sigma fun _ : String => Product) → List (Sigma fun _ : String => Product)
  perm : ∀ l, (visit l).Perm l

/-- The order that visits the entries as they are listed. -/
def RangeOrder.asListed : RangeOrder := ⟨id, fun l => List.Perm.refl l⟩

/-- The order that visits the entries last to first. -/
def RangeOrder.reversed : RangeOrder := ⟨List.reverse, fun l => List.reverse_perm l⟩

/-- Method `ProductStore.FindAll`. -/
def ProductStore.FindAll (p : ProductStore) (order : RangeOrder) :
    (List Product × Option Error) × ProductStore :=
  let prds := (order.visit p.entries).foldl (fun prds v => prds ++ [v.2]) []
  let prds := sortSlice (fun a b => Float64.lt a.Price b.Price) prds
  ((prds, none), p)

/-- The body of the loop `for _, product := range products { ... }` of `Upsert`: the
store after it, or `none` when the assignment `p.products[key] = product` panics, which
it does on the `nil` map. -/
def ProductStore.upsertOne (now : Time) (p : ProductStore) (product : Product) :
    Option ProductStore :=
  let key := buildProductKey product
  let product :=
    if (p.get key).isNone then { product with CreatedAt := now } else product
  let product := { product with UpdatedAt := now }
  match p.products with
  | none => none
  | some m => some ⟨some (m.insert key product)⟩

/-- The loop `for _, product := range products { ... }` of `Upsert`, followed by
`return nil`: how the call ends, and the store it leaves. -/
def ProductStore.forProducts (now : Time) : List Product → ProductStore → Ended × ProductStore
  | [], p => (Ended.returned none, p)
  | product :: rest, p =>
    match p.upsertOne now product with
    | none => (Ended.panicked "assignment to entry in nil map", p)
    | some p => ProductStore.forProducts now rest p

/-- Method `ProductStore.Upsert`; `now` is the reading of `time.Now()`. -/
def ProductStore.Upsert (p : ProductStore) (now : Time) (products : List Product) :
    Ended × ProductStore :=
  ProductStore.forProducts now products p

/-! ## Vocabulary of the statements -/

/-- The attributes of a product other than its two timestamps. -/
def Product.attributes (p : Product) :
    String × String × String × String × Bool × String × Float64 × String × String :=
  (p.Retailer, p.Manufacturer, p.Model, p.Category, p.IsAvailable, p.AvailabilityInfo,
    p.Price, p.ProductURL, p.ThumbnailURL)

/-- The keys of the store. -/
def ProductStore.keys (p : ProductStore) : List String := p.entries.keys

/-- The records of the store. -/
def ProductStore.records (p : ProductStore) : List Product := p.entries.map (·.2)

/-- The walk of each category of the list in turn, each from the world the previous one
left: the walks' results and the last world, or `none` when a walk fails. -/
def walkEach {σ : Type} (r : Retailer σ) :
    List String → World σ → Option (List (List Product) × World σ)
  | [], w => some ([], w)
  | category :: rest, w =>
    match loadProductsFromCategory r category w with
    | ((prds, none), w) => (walkEach r rest w).map fun out => (prds :: out.1, out.2)
    | ((_, some _), _) => none

/-- `LoadProducts` on each adapter of the list in turn, each from the world the previous
one left: the results and the last world, or `none` when one of them fails. -/
def loadEach {σ : Type} : List (Retailer σ) → World σ → Option (List (List Product) × World σ)
  | [], w => some ([], w)
  | r :: rest, w =>
    match LoadProducts r w with
    | ((prds, none), w) => (loadEach rest w).map fun out => (prds :: out.1, out.2)
    | ((_, some _), _) => none

/-- The products of the responses of a list of fetches, in the order of the fetches. -/
def fetched (evs : List Fetch) : List Product := (evs.map fun ev => ev.resp.Products).flatten

/-- What a stretch of the aggregation code did: started with the trace `before` and
the products `prds` collected, it issued the fetches `evs`, each answered by `r`, and
ended with the result `out`.  Either every fetch succeeded and the result is `prds`
followed by the fetched products, without an error; or the last fetch failed, every
earlier one succeeded, and the result is that error and no product. -/
def Ran {σ : Type} (r : Retailer σ) (prds : List Product) (before : List Fetch)
    (out : (List Product × Option Error) × World σ) (evs : List Fetch) : Prop :=
  out.2.fetches = before ++ evs ∧
  (∀ ev ∈ evs, ∃ s, (ev.resp, ev.err) = (r.LoadProducts ev.category ⟨ev.page⟩ s).1) ∧
  ((out.1 = (prds ++ fetched evs, none) ∧ ∀ ev ∈ evs, ev.err = none) ∨
    ∃ pre ev e, evs = pre ++ [ev] ∧ (∀ x ∈ pre, x.err = none) ∧ ev.err = some e ∧
      out.1 = ([], some e))

/-- The text holds the delimiter of the keys, "-". -/
def hasDash (s : String) : Prop := '-' ∈ s.data

instance hasDash_decidable (s : String) : Decidable (hasDash s) := by
  unfold hasDash
  infer_instance

/-- A product without its last-update timestamp. -/
def Product.withoutUpdatedAt (p : Product) : Product := { p with UpdatedAt := 0 }

/-- Ascending by price: at any two adjacent positions `i`, `i + 1` of the list, the
price at `i` is `<=` the price at `i + 1`. -/
def AscendingByPrice (l : List Product) : Prop :=
  ∀ (i : Nat) (a b : Product), l[i]? = some a → l[i + 1]? = some b →
    Float64.le a.Price b.Price = true

/-! ## Fixtures: the stubs of `pkg/retailer/retailer_test.go` -/

/-- A product as the tests build them: every other field has its zero value. -/
def product (retailer manufacturer model : String) (price : ℚ) : Product :=
  ⟨retailer, manufacturer, model, "", false, "", Float64.finite price, "", "", 0, 0⟩

/-- The stub of "return products for single category with multiple pages": one category,
two pages of one product each, every response reporting the last page 2. -/
def stubTwoPages : Retailer Unit where
  LoadProducts := fun _ options s =>
    if options.Page = 2 then
      ((⟨[product "" "Gretsch" "G2622LH Strml. DC CB Gunmetal" 0], 2, 2⟩, none), s)
    else
      ((⟨[product "" "Fender" "AM Pro II Jazzmaster LH MN MYS" 0], 1, 2⟩, none), s)
  Categories := fun s => (["guitars"], s)

/-- The second stub of "store products for multiple retailers": one category of one
page. -/
def stubBasses : Retailer Unit where
  LoadProducts := fun _ _ s =>
    ((⟨[product "" "Fender" "AM Pro II P Bass MN MYS SFG LH" 0], 1, 1⟩, none), s)
  Categories := fun s => (["basses"], s)

/-- A stub with two categories of two pages each whose fetch of the second page of
"guitars" fails. -/
def stubFailing : Retailer Unit where
  LoadProducts := fun category options s =>
    if category = "guitars" ∧ options.Page = 2 then
      ((⟨[], 0, 0⟩, some "could not fetch products"), s)
    else
      ((⟨[product "" "Fender" (category ++ " model") 0], options.Page, 2⟩, none), s)
  Categories := fun s => (["basses", "guitars"], s)

/-- The world before any fetch. -/
def World.start : World Unit := ⟨(), []⟩

/-- The store of the tests, `testProductStore`: its state is the field `Products`, and
`Upsert` puts a copy of its argument there. -/
def testProductStore : ProductUpserter (List Product) := ⟨fun prds _ => (none, prds)⟩

/-- The stub of "return products for multiple categories with multiple pages": two
categories of two pages, one product a page. -/
def stubTwoCategories : Retailer Unit where
  LoadProducts := fun category options s =>
    let p :=
      if category = "guitars" ∧ options.Page = 1 then
        product "" "Fender" "AM Pro II Tele LH MN MYST SFG" 0
      else if category = "guitars" ∧ options.Page = 2 then
        product "" "Schecter" "C-1 Hellraiser FR BCH LH" 0
      else if category = "basses" ∧ options.Page = 1 then
        product "" "Fender" "AM Pro II P Bass MN MYS SFG LH" 0
      else if category = "basses" ∧ options.Page = 2 then
        product "" "Sterling by Music Man" "StingRay 5 LH MN VSB" 0
      else Product.zero
    ((⟨[p], options.Page, 2⟩, none), s)
  Categories := fun s => (["basses", "guitars"], s)

/-- The product of "return products for single category without pagination", as an
adapter delivers it: both timestamps have their zero value. -/
def jazzmaster : Product := product "Test" "Fender" "AM Pro II Jazzmaster LH MN MYS" 1599

/-- A product of the same retailer with another key. -/
def telecaster : Product := product "Test" "Fender" "AM Pro II Tele LH MN MYST SFG" 1499

/-- A product whose price is not a number. -/
def unpriced : Product :=
  { product "Test" "Gretsch" "G2622LH Strml. DC CB Gunmetal" 0 with Price := Float64.nan }

/-- The product of the retailer "R" with manufacturer "A" and model "B-C". -/
def modelWithDash : Product := product "R" "A" "B-C" 10

/-- The product of the retailer "R" with manufacturer "A-B" and model "C". -/
def manufacturerWithDash : Product := product "R" "A-B" "C" 20

/-- The product of the retailer "R-A" with manufacturer "B" and model "C". -/
def thirdCollider : Product := product "R-A" "B" "C" 30

/-- A stub whose every response reports the current page 2 and the last page 2,
whatever page is asked for. -/
def stubLastPageFirst : Retailer Unit where
  LoadProducts := fun _ _ s =>
    ((⟨[product "" "Fender" "AM Pro II Jazzmaster LH MN MYS" 0], 2, 2⟩, none), s)
  Categories := fun s => (["guitars"], s)

/-- A stub that lowers its last page: the response to page 1 reports the last page 5,
every other response the last page 2. -/
def stubShrinking : Retailer Unit where
  LoadProducts := fun _ options s =>
    if options.Page = 1 then
      ((⟨[product "" "Fender" "AM Pro II Jazzmaster LH MN MYS" 0], 1, 5⟩, none), s)
    else
      ((⟨[product "" "Gretsch" "G2622LH Strml. DC CB Gunmetal" 0], options.Page, 2⟩, none), s)
  Categories := fun s => (["guitars"], s)

/-- A product with the price of `jazzmaster` and another key. -/
def samePrice : Product := product "Test" "Gretsch" "G2622LH Strml. DC CB Gunmetal" 1599

/-! ## `internal/inmem/products.go`: `Load`

Package `encoding/json` is not code of this repository.  The call that `Load` makes is
modelled by what the documentation of the package says of it, at the level of JSON
values: the bytes of a stream are not modelled, a stream is given by the JSON value the
decoder finds on it, and a member of a JSON object by the product the decoder makes of
it.  Members that fail in another way than by a JSON type that does not fit (a text that
`Time.UnmarshalJSON` rejects) are not covered.  Method `Dump` is not modelled: what it
writes, and whether it fails, is decided by the encoder of the package alone. -/

/-- One member of a JSON object, as the decoder treats it when the target is a
`map[string]products.Product`. -/
inductive Member where
  /-- The value converts to the product `value`. -/
  | ok (key : String) (value : Product)
  /-- The value, or a field of it, has a JSON type that does not fit
  (`UnmarshalTypeError`): the decoder keeps the error, stores under the key what it could
  convert, `value`, and goes on. -/
  | mismatch (key : String) (value : Product) (err : Error)

/-- The key of a member. -/
def Member.key : Member → String
  | Member.ok key _ => key
  | Member.mismatch key _ _ => key

/-- The product that the decoder stores for a member. -/
def Member.value : Member → Product
  | Member.ok _ value => value
  | Member.mismatch _ value _ => value

/-- The error of the conversion of a member, if any. -/
def Member.err : Member → Option Error
  | Member.ok _ _ => none
  | Member.mismatch _ _ err => some err

/-- What `json.Decoder.Decode` finds on a stream. -/
inductive Stream where
  /-- No complete, well-formed JSON value: `Decode` returns the error before it looks at
  the target. -/
  | broken (err : Error)
  /-- The JSON value `null`. -/
  | null
  /-- A JSON value that is neither an object nor `null`: an `UnmarshalTypeError`. -/
  | other (err : Error)
  /-- A JSON object, with its members in the order of the text. -/
  | object (members : List Member)

/-- The decoder on the members of an object, with the map as target: each member is
stored in the map when it has been converted; `saved` is the first error kept so
far. -/
def decodeMembers : List Member → Option Error → ProductMap → Option Error × ProductMap
  | [], saved, m => (saved, m)
  | Member.ok key value :: rest, saved, m => decodeMembers rest saved (m.insert key value)
  | Member.mismatch key value err :: rest, saved, m =>
    decodeMembers rest (saved.orElse fun _ => some err) (m.insert key value)

/-- Library call `json.NewDecoder(r).Decode(&m)` on a map variable `m`: "If the map is
nil, Unmarshal allocates a new map.  Otherwise Unmarshal reuses the existing map,
keeping existing entries."  The value `null` sets the variable to `nil`. -/
def jsonDecode (r : Stream) (m : Option ProductMap) : Option Error × Option ProductMap :=
  match r with
  | Stream.broken err => (some err, m)
  | Stream.null => (none, none)
  | Stream.other err => (some err, m)
  | Stream.object members =>
    let out := decodeMembers members none (m.getD ∅)
    (out.1, some out.2)

/-- Method `ProductStore.Load`. -/
def ProductStore.Load (p : ProductStore) (r : Stream) : Option Error × ProductStore :=
  let out := jsonDecode r p.products
  (out.1, ⟨out.2⟩)

/-- The stream is a well-formed snapshot of the collection `C`: an object whose members
are the entries of `C`, in some order. -/
def Stream.encodes (r : Stream) (C : ProductMap) : Prop :=
  ∃ l : List (Sigma fun _ : String => Product),
    l.Perm C.entries ∧ r = Stream.object (l.map fun e => Member.ok e.1 e.2)

/-- The stream is rejected as a whole: it holds no complete JSON value, or a value that
is neither an object nor `null`. -/
def Stream.rejected : Stream → Bool
  | Stream.broken _ => true
  | Stream.other _ => true
  | _ => false

/-- The error of the first member of the list that does not convert. -/
def firstError : List Member → Option Error
  | [] => none
  | x :: rest => x.err.orElse fun _ => firstError rest

/-- The product that the decoder stores for the last member of the list with the key,
if the list has a member with the key. -/
def storedUnder (key : String) : List Member → Option Product
  | [] => none
  | x :: rest =>
    (storedUnder key rest).orElse fun _ => if x.key = key then some x.value else none

/-! ## `pkg/retailer/musik_produktiv.go`

Packages `net/http`, `goquery`, `regexp`, `strings` and `strconv` are not code of this
repository.  A page is given by what the selections of the adapter find in it, and the
two functions of `strconv` are parameters of the adapter. -/

/-- The two functions of package `strconv` that the adapter calls. -/
structure Strconv where
  /-- `strconv.ParseFloat(s, 32)`. -/
  ParseFloat32 : String → Float64 × Option Error
  /-- `strconv.Atoi(s)`. -/
  Atoi : String → Int × Option Error

/-- One node of `ul.artgrid li`, by what the selections of `parseProduct` find in it. -/
structure ItemNode where
  /-- `s.Find("b").First().Text()`. -/
  name : String
  /-- `s.Find("i").Text()`. -/
  price : String
  /-- `s.Find(".ampel").HasClass("zzz")`. -/
  soldOut : Bool
  /-- `s.Find("a").First().AttrOr("href", "")`. -/
  href : String
  /-- `s.Find("img").First().AttrOr("src", "")`. -/
  src : String

/-- A goquery document, by what the selections of `LoadProducts` and `parsePagination`
find in it. -/
structure Document where
  /-- `doc.Find("div.list_title h1").Text()`. -/
  title : String
  /-- The texts of `doc.Find(".mp-filtermenu ul").First().Find("li span")`. -/
  manufacturers : List String
  /-- The nodes of `doc.Find("ul.artgrid li")`. -/
  items : List ItemNode
  /-- `len(pagination.Nodes)` for `pagination := s.Find(".list_page div")`. -/
  paginationNodes : Nat
  /-- `pagination.Find("div").Text()`. -/
  currentPage : String
  /-- `pagination.Find("a").Last().Text()`. -/
  lastPage : String

/-- What `m.http.Get(url)` followed by `goquery.NewDocumentFromReader(resp.Body)` gives. -/
inductive Page where
  /-- `Get` returns an error. -/
  | getFailed (err : Error)
  /-- `NewDocumentFromReader` returns an error. -/
  | readFailed (err : Error)
  /-- Both succeed. -/
  | document (doc : Document)

/-- Record `MusikProduktiv`. -/
structure MusikProduktiv where
  http : String → Page
  manufacturers : List String

/-- The zero value of `ProductResponse`. -/
def ProductResponse.zero : ProductResponse := ⟨[], 0, 0⟩

/-- The conversion `uint(i)` of an `int`. -/
def uintOfInt (i : Int) : Uint :=
  ⟨(i % (uintSize : Int)).toNat % uintSize, Nat.mod_lt _ (by decide)⟩

/-- Library function `strings.HasPrefix(s, start)`. -/
def startsWith (s start : String) : Bool := start.data.isPrefixOf s.data

/-- Library function `strings.TrimPrefix(s, start)`. -/
def trimStart (s start : String) : String :=
  if startsWith s start then String.mk (s.data.drop start.data.length) else s

/-- The first part of `strings.Split(s, " ")`: the text before the first blank. -/
def firstPart (s : String) : String := String.mk (s.data.takeWhile fun c => c ≠ ' ')

/-- The text without what the pattern `[^0-9]` matches: its digits. -/
def digitsOf (s : String) : String := String.mk (s.data.filter fun c => c.isDigit)

/-- Method `MusikProduktiv.parsePrice`. -/
def MusikProduktiv.parsePrice (lib : Strconv) (price : String) : Float64 × Option Error :=
  let p := digitsOf price
  match lib.ParseFloat32 p with
  | (_, some err) => (Float64.finite 0, some err)
  | (fPrice, none) => (fPrice, none)

/-- Method `MusikProduktiv.parseProductName`. -/
def MusikProduktiv.parseProductName (m : MusikProduktiv) (productName : String) :
    String × String :=
  match m.manufacturers.find? fun man => startsWith productName man with
  | some man => (man, trimStart productName (man ++ " "))
  | none =>
    let part0 := firstPart productName
    (part0, trimStart productName (part0 ++ " "))

/-- Method `MusikProduktiv.parseProduct`. -/
def MusikProduktiv.parseProduct (lib : Strconv) (m : MusikProduktiv) (s : ItemNode) :
    Product × Option Error :=
  let name := m.parseProductName s.name
  match MusikProduktiv.parsePrice lib s.price with
  | (_, some err) => (Product.zero, some err)
  | (price, none) =>
    ({ Retailer := "Musik Produktiv", Manufacturer := name.1, Model := name.2, Category := "",
       IsAvailable := !s.soldOut, AvailabilityInfo := "", Price := price,
       ProductURL := s.href, ThumbnailURL := s.src, CreatedAt := 0, UpdatedAt := 0 }, none)

/-- Method `MusikProduktiv.parsePagination`. -/
def MusikProduktiv.parsePagination (lib : Strconv) (s : Document) : Int × Int × Option Error :=
  if s.paginationNodes = 1 then (1, 1, none)
  else
    match lib.Atoi s.currentPage with
    | (_, some err) => (0, 0, some ("could not parse current page from pagination: " ++ err))
    | (currentPage, none) =>
      match lib.Atoi s.lastPage with
      | (_, some err) => (0, 0, some ("could not parse last page from pagination: " ++ err))
      | (lastPage, none) => (currentPage, lastPage, none)

/-- The body of the function given to `instrumentNodes.Each`: what `instruments[i]` holds
after it has run on node `i`.  The slice is made of zero products, and on an error of
`parseProduct` the function returns before it assigns. -/
def MusikProduktiv.eachInstrument (lib : Strconv) (m : MusikProduktiv) (categoryName : String)
    (s : ItemNode) : Product :=
  match m.parseProduct lib s with
  | (_, some _) => Product.zero
  | (p, none) => { p with Category := categoryName }

/-- Method `MusikProduktiv.LoadProducts`. -/
def MusikProduktiv.LoadProducts (lib : Strconv) (m : MusikProduktiv) (category : String) :
    (ProductResponse × Option Error) × MusikProduktiv :=
  match m.http ("https://www.musik-produktiv.de/" ++ category) with
  | Page.getFailed err =>
    ((ProductResponse.zero,
      some ("could not fetch products from musik-produktiv.de: " ++ err)), m)
  | Page.readFailed err =>
    ((ProductResponse.zero,
      some ("could not create goquery document from reader: " ++ err)), m)
  | Page.document doc =>
    let categoryName := doc.title
    let m := { m with manufacturers := doc.manufacturers }
    let instruments := doc.items.map (m.eachInstrument lib categoryName)
    match MusikProduktiv.parsePagination lib doc with
    | (_, _, some err) => ((ProductResponse.zero, some err), m)
    | (currentPage, lastPage, none) =>
      ((⟨instruments, uintOfInt currentPage, uintOfInt lastPage⟩, none), m)

/-! ## Fixtures: a page of musik-produktiv.de -/

/-- The number that a text of digits spells. -/
def numberOf (s : String) : Nat := s.data.foldl (fun n c => 10 * n + (c.toNat - 48)) 0

/-- A stand-in for `strconv` on the texts of the fixtures: the text without a character
is rejected, a text of a few digits is the number it spells. -/
def strconvOnDigits : Strconv where
  ParseFloat32 := fun s =>
    if s.data = [] then (Float64.finite 0, some "strconv.ParseFloat: invalid syntax")
    else (Float64.finite (numberOf s), none)
  Atoi := fun s =>
    if s.data = [] then (0, some "strconv.Atoi: invalid syntax") else ((numberOf s : Nat), none)

/-- A page of the category "gitarren" with two listed items, the second priced "auf
Anfrage", and no further page. -/
def pageOnRequest : Document where
  title := "Gitarren"
  manufacturers := ["Fender", "Gretsch"]
  items :=
    [⟨"Fender AM Pro II Jazzmaster LH MN MYS", "1.599 €", false, "/jazzmaster", "/j.jpg"⟩,
      ⟨"Gretsch G2622LH Strml. DC CB Gunmetal", "auf Anfrage", false, "/g2622", "/g.jpg"⟩]
  paginationNodes := 1
  currentPage := ""
  lastPage := ""

/-- The adapter on a site that serves `pageOnRequest` at every address. -/
def musikProduktivOnRequest : MusikProduktiv := ⟨fun _ => Page.document pageOnRequest, []⟩

/-! ## The category walk -/

theorem call_fst {σ : Type} (r : Retailer σ) (c : String) (o : RequestOptions) (w : World σ) :
    (r.call c o w).1 = (r.LoadProducts c o w.state).1 := rfl

theorem call_fetches {σ : Type} (r : Retailer σ) (c : String) (o : RequestOptions)
    (w : World σ) :
    (r.call c o w).2.fetches = w.fetches ++
      [⟨c, o.Page, (r.LoadProducts c o w.state).1.1, (r.LoadProducts c o w.state).1.2⟩] := rfl

theorem val_one : (1 : Uint).val = 1 := rfl

/-- Below another `uint`, the increment does not wrap. -/
theorem val_succ_of_lt {page last : Uint} (h : page < last) : (page + 1).val = page.val + 1 := by
  have h1 : page.val < last.val := h
  have h2 : last.val < uintSize := last.isLt
  rw [Fin.val_add, val_one]
  exact Nat.mod_eq_of_lt (by omega)

/-- The iteration bound of `forPages` is never exhausted: any bound from
`uintSize - 1 - page` on gives the same run. -/
theorem forPages_fuel {σ : Type} (r : Retailer σ) (category : String) :
    ∀ (f g : Nat) (page : Uint) (resp : ProductResponse) (prds : List Product) (w : World σ),
      uintSize - 1 - page.val ≤ f → uintSize - 1 - page.val ≤ g →
      forPages r category f page resp prds w = forPages r category g page resp prds w := by
  intro f
  induction f with
  | zero =>
    intro g page resp prds w hf _
    have hlast : resp.LastPage.val < uintSize := resp.LastPage.isLt
    have hnot : ¬ page < resp.LastPage := by
      intro h
      have : page.val < resp.LastPage.val := h
      omega
    cases g with
    | zero => rfl
    | succ g => simp [forPages, hnot]
  | succ f ih =>
    intro g page resp prds w hf hg
    by_cases hlt : page < resp.LastPage
    · have hv := val_succ_of_lt hlt
      cases g with
      | zero =>
        have hlast : resp.LastPage.val < uintSize := resp.LastPage.isLt
        have : page.val < resp.LastPage.val := hlt
        omega
      | succ g =>
        simp only [forPages, hlt, if_true]
        rcases hc : r.call category ⟨page + 1⟩ w with ⟨⟨resp1, _ | err⟩, w1⟩
        · simp only
          exact ih g (page + 1) resp1 _ w1 (by omega) (by omega)
        · rfl
    · cases g with
      | zero => simp [forPages, hlt]
      | succ g => simp [forPages, hlt]

theorem fetched_nil : fetched [] = [] := rfl

theorem fetched_cons (ev : Fetch) (evs : List Fetch) :
    fetched (ev :: evs) = ev.resp.Products ++ fetched evs := by
  simp [fetched]

theorem fetched_append (evs1 evs2 : List Fetch) :
    fetched (evs1 ++ evs2) = fetched evs1 ++ fetched evs2 := by
  simp [fetched]

/-- A stretch that issues no fetch. -/
theorem Ran.done {σ : Type} (r : Retailer σ) (prds : List Product) (w : World σ) :
    Ran r prds w.fetches ((prds, none), w) [] := by
  refine ⟨by simp, by simp, Or.inl ⟨by simp [fetched_nil], by simp⟩⟩

/-- A stretch that ends on a failed fetch. -/
theorem Ran.failed {σ : Type} (r : Retailer σ) (prds : List Product) (c : String)
    (o : RequestOptions) (w : World σ) (e : Error)
    (h : (r.LoadProducts c o w.state).1.2 = some e) :
    Ran r prds w.fetches (([], some e), (r.call c o w).2)
      [⟨c, o.Page, (r.LoadProducts c o w.state).1.1, (r.LoadProducts c o w.state).1.2⟩] := by
  refine ⟨call_fetches r c o w, ?_, Or.inr ⟨[], ⟨c, o.Page, _, _⟩, e, rfl, by simp, h, rfl⟩⟩
  intro ev hev
  rw [List.mem_singleton] at hev
  subst hev
  exact ⟨w.state, rfl⟩

/-- Successful fetches followed by a stretch. -/
theorem Ran.append {σ : Type} (r : Retailer σ) (prds : List Product) (before : List Fetch)
    (out : (List Product × Option Error) × World σ) (evs1 evs2 : List Fetch)
    (hok : ∀ ev ∈ evs1, ev.err = none)
    (hby : ∀ ev ∈ evs1, ∃ s, (ev.resp, ev.err) = (r.LoadProducts ev.category ⟨ev.page⟩ s).1)
    (h : Ran r (prds ++ fetched evs1) (before ++ evs1) out evs2) :
    Ran r prds before out (evs1 ++ evs2) := by
  obtain ⟨htrace, hby2, hres⟩ := h
  refine ⟨by rw [htrace, List.append_assoc], ?_, ?_⟩
  · intro ev hev
    rcases List.mem_append.mp hev with h1 | h2
    · exact hby ev h1
    · exact hby2 ev h2
  · rcases hres with ⟨hout, hall⟩ | ⟨pre, ev, e, hsplit, hpre, herr, hout⟩
    · refine Or.inl ⟨by rw [hout, fetched_append, List.append_assoc], ?_⟩
      intro ev hev
      rcases List.mem_append.mp hev with h1 | h2
      · exact hok ev h1
      · exact hall ev h2
    · refine Or.inr ⟨evs1 ++ pre, ev, e, by rw [hsplit, List.append_assoc], ?_, herr, hout⟩
      intro x hx
      rcases List.mem_append.mp hx with h1 | h2
      · exact hok x h1
      · exact hpre x h2

/-- What the page loop did. -/
theorem forPages_ran {σ : Type} (r : Retailer σ) (category : String) :
    ∀ (fuel : Nat) (page : Uint) (resp : ProductResponse) (prds : List Product) (w : World σ),
      ∃ evs, Ran r prds w.fetches (forPages r category fuel page resp prds w) evs := by
  intro fuel
  induction fuel with
  | zero =>
    intro page resp prds w
    exact ⟨[], Ran.done r prds w⟩
  | succ fuel ih =>
    intro page resp prds w
    by_cases hlt : page < resp.LastPage
    · simp only [forPages, hlt, if_true]
      rcases hc : r.call category ⟨page + 1⟩ w with ⟨⟨resp1, _ | err⟩, w1⟩
      · simp only
        have hfst := call_fst r category ⟨page + 1⟩ w
        have hfet := call_fetches r category ⟨page + 1⟩ w
        rw [hc] at hfst hfet
        simp only at hfst hfet
        obtain ⟨evs, hran⟩ := ih (page + 1) resp1 (prds ++ resp1.Products) w1
        refine ⟨[⟨category, page + 1, resp1, none⟩] ++ evs, Ran.append r prds _ _ _ _ ?_ ?_ ?_⟩
        · simp
        · intro ev hev
          rw [List.mem_singleton] at hev
          subst hev
          exact ⟨w.state, by rw [← hfst]⟩
        · rw [hfet, ← hfst] at hran
          simpa [fetched] using hran
      · simp only
        have hfst := call_fst r category ⟨page + 1⟩ w
        rw [hc] at hfst
        have hw1 : w1 = (r.call category ⟨page + 1⟩ w).2 := by rw [hc]
        rw [hw1]
        exact ⟨_, Ran.failed r prds category ⟨page + 1⟩ w err (by rw [← hfst])⟩
    · simp only [forPages, hlt, if_false]
      exact ⟨[], Ran.done r prds w⟩

/-- What the walk of a category did. -/
theorem loadProductsFromCategory_ran {σ : Type} (r : Retailer σ) (category : String)
    (w : World σ) :
    ∃ evs, Ran r [] w.fetches (loadProductsFromCategory r category w) evs := by
  rcases hc : r.call category ⟨1⟩ w with ⟨⟨resp1, _ | err⟩, w1⟩
  · simp only [loadProductsFromCategory, hc]
    have hfst := call_fst r category ⟨1⟩ w
    have hfet := call_fetches r category ⟨1⟩ w
    rw [hc] at hfst hfet
    simp only at hfst hfet
    obtain ⟨evs, hran⟩ := forPages_ran r category (uintSize - 1 - (1 : Uint).val) 1 resp1
      resp1.Products w1
    refine ⟨[⟨category, 1, resp1, none⟩] ++ evs, Ran.append r [] _ _ _ _ ?_ ?_ ?_⟩
    · simp
    · intro ev hev
      rw [List.mem_singleton] at hev
      subst hev
      exact ⟨w.state, by rw [← hfst]⟩
    · rw [hfet, ← hfst] at hran
      simpa [fetched] using hran
  · simp only [loadProductsFromCategory, hc]
    have hfst := call_fst r category ⟨1⟩ w
    rw [hc] at hfst
    have hw1 : w1 = (r.call category ⟨1⟩ w).2 := by rw [hc]
    rw [hw1]
    exact ⟨_, Ran.failed r [] category ⟨1⟩ w err (by rw [← hfst])⟩

/-- A walk without an error issued successful fetches only and returns their
products. -/
theorem Ran.of_ok {σ : Type} {r : Retailer σ} {before : List Fetch} {prds : List Product}
    {w1 : World σ} {evs : List Fetch} (h : Ran r [] before ((prds, none), w1) evs) :
    prds = fetched evs ∧ ∀ ev ∈ evs, ev.err = none := by
  obtain ⟨_, _, hres⟩ := h
  rcases hres with ⟨hout, hall⟩ | ⟨pre, ev, e, _, _, _, hout⟩
  · simp only [List.nil_append, Prod.mk.injEq, and_true] at hout
    exact ⟨hout, hall⟩
  · simp at hout

/-- A stretch that ended on an error collected nothing, whatever it had at the start. -/
theorem Ran.of_error {σ : Type} {r : Retailer σ} {before : List Fetch}
    {prds : List Product} {err : Error} {w1 : World σ} {evs : List Fetch}
    (h : Ran r [] before ((prds, some err), w1) evs) (prds1 : List Product) :
    Ran r prds1 before (([], some err), w1) evs := by
  obtain ⟨htrace, hby, hres⟩ := h
  refine ⟨htrace, hby, ?_⟩
  rcases hres with ⟨hout, _⟩ | ⟨pre, ev, e, hsplit, hpre, herr, hout⟩
  · simp at hout
  · simp only [Prod.mk.injEq, Option.some.injEq] at hout
    exact Or.inr ⟨pre, ev, e, hsplit, hpre, herr, by rw [hout.2]⟩

/-- What the loop over the categories did. -/
theorem forCategories_ran {σ : Type} (r : Retailer σ) :
    ∀ (cats : List String) (prds : List Product) (w : World σ),
      ∃ evs, Ran r prds w.fetches (forCategories r cats prds w) evs := by
  intro cats
  induction cats with
  | nil =>
    intro prds w
    exact ⟨[], Ran.done r prds w⟩
  | cons category rest ih =>
    intro prds w
    obtain ⟨evs1, h1⟩ := loadProductsFromCategory_ran r category w
    rcases hc : loadProductsFromCategory r category w with ⟨⟨cp, _ | err⟩, w1⟩
    · simp only [forCategories, hc]
      rw [hc] at h1
      obtain ⟨hcp, hok⟩ := h1.of_ok
      obtain ⟨evs2, h2⟩ := ih (prds ++ cp) w1
      have hw1 : w1.fetches = w.fetches ++ evs1 := h1.1
      subst hcp
      rw [hw1] at h2
      exact ⟨evs1 ++ evs2, Ran.append r prds _ _ _ _ hok h1.2.1 h2⟩
    · simp only [forCategories, hc]
      rw [hc] at h1
      exact ⟨evs1, h1.of_error prds⟩

/-- What `LoadProducts` did. -/
theorem LoadProducts_ran {σ : Type} (r : Retailer σ) (w : World σ) :
    ∃ evs, Ran r [] w.fetches (LoadProducts r w) evs :=
  forCategories_ran r (r.Categories w.state).1 [] ⟨(r.Categories w.state).2, w.fetches⟩

/-- A failed fetch of a stretch is its last fetch, and gives the result. -/
theorem Ran.last_failed {σ : Type} {r : Retailer σ} {prds : List Product} {before : List Fetch}
    {out : (List Product × Option Error) × World σ} {evs pre post : List Fetch} {ev : Fetch}
    {e : Error} (h : Ran r prds before out evs) (hsplit : evs = pre ++ ev :: post)
    (herr : ev.err = some e) :
    post = [] ∧ (∀ x ∈ pre, x.err = none) ∧ out.1 = ([], some e) := by
  obtain ⟨_, _, hres⟩ := h
  rcases hres with ⟨_, hall⟩ | ⟨pre1, ev1, e1, hsplit1, hpre1, herr1, hout⟩
  · have := hall ev (by rw [hsplit]; simp)
    rw [herr] at this
    cases this
  · rcases List.eq_nil_or_concat post with hnil | ⟨post1, l, hpost⟩
    · subst hnil
      rw [hsplit] at hsplit1
      have hinj := List.append_inj' hsplit1 rfl
      have hev : ev = ev1 := by simpa using hinj.2
      subst hev
      rw [herr] at herr1
      cases herr1
      refine ⟨rfl, ?_, hout⟩
      rw [hinj.1]
      exact hpre1
    · exfalso
      rw [hsplit, hpost] at hsplit1
      have hre : pre ++ ev :: post1.concat l = (pre ++ ev :: post1) ++ [l] := by simp
      rw [hre] at hsplit1
      have hinj := List.append_inj' hsplit1 rfl
      have := hpre1 ev (by rw [← hinj.1]; simp)
      rw [herr] at this
      cases this

/-- When every fetch of the adapter succeeds, no walk fails. -/
theorem loadProductsFromCategory_ok {σ : Type} (r : Retailer σ)
    (hfetch : ∀ c o s, (r.LoadProducts c o s).1.2 = none) (category : String) (w : World σ) :
    (loadProductsFromCategory r category w).1.2 = none := by
  obtain ⟨evs, htrace, hby, hres⟩ := loadProductsFromCategory_ran r category w
  rcases hres with ⟨hout, _⟩ | ⟨pre, ev, e, hsplit, _, herr, _⟩
  · rw [hout]
  · exfalso
    obtain ⟨s, hs⟩ := hby ev (by rw [hsplit]; simp)
    have h2 := congrArg Prod.snd hs
    simp only at h2
    rw [hfetch, herr] at h2
    cases h2

/-- Without a failing walk, the loop over the categories appends the walks' results in
the order of the categories. -/
theorem forCategories_walkEach {σ : Type} (r : Retailer σ)
    (hfetch : ∀ c o s, (r.LoadProducts c o s).1.2 = none) :
    ∀ (cats : List String) (prds : List Product) (w : World σ),
      ∃ walks w1, walkEach r cats w = some (walks, w1) ∧
        forCategories r cats prds w = ((prds ++ walks.flatten, none), w1) := by
  intro cats
  induction cats with
  | nil =>
    intro prds w
    exact ⟨[], w, rfl, by simp [forCategories]⟩
  | cons category rest ih =>
    intro prds w
    have hok := loadProductsFromCategory_ok r hfetch category w
    rcases hc : loadProductsFromCategory r category w with ⟨⟨cp, _ | err⟩, w1⟩
    · obtain ⟨walks, w2, hwalk, hloop⟩ := ih (prds ++ cp) w1
      refine ⟨cp :: walks, w2, ?_, ?_⟩
      · simp [walkEach, hc, hwalk]
      · simp [forCategories, hc, hloop]
    · rw [hc] at hok
      cases hok

/-- The page loop against an adapter that always succeeds and always reports the last
page `N`: from page `page` it fetches the pages `page + 1, ..., N` in that order. -/
theorem forPages_const {σ : Type} (r : Retailer σ) (category : String) (N : Uint)
    (hfetch : ∀ o s, (r.LoadProducts category o s).1.2 = none ∧
      (r.LoadProducts category o s).1.1.LastPage = N) :
    ∀ (fuel : Nat) (page : Uint) (resp : ProductResponse) (prds : List Product) (w : World σ),
      resp.LastPage = N → page.val ≤ N.val → N.val - page.val ≤ fuel →
      ∃ evs, (forPages r category fuel page resp prds w).2.fetches = w.fetches ++ evs ∧
        evs.map (fun ev => ev.page.val) = List.range' (page.val + 1) (N.val - page.val) ∧
        (∀ ev ∈ evs, ev.category = category) ∧
        (forPages r category fuel page resp prds w).1 = (prds ++ fetched evs, none) := by
  intro fuel
  induction fuel with
  | zero =>
    intro page resp prds w _ hle hfuel
    have h0 : N.val - page.val = 0 := by omega
    exact ⟨[], by simp [forPages], by simp [h0], by simp, by simp [forPages, fetched_nil]⟩
  | succ fuel ih =>
    intro page resp prds w hlast hle hfuel
    by_cases hlt : page < resp.LastPage
    · have hv := val_succ_of_lt hlt
      have hltv : page.val < N.val := by rw [← hlast]; exact hlt
      simp only [forPages, hlt, if_true]
      have hfst := call_fst r category ⟨page + 1⟩ w
      have hfet := call_fetches r category ⟨page + 1⟩ w
      obtain ⟨herr, hN⟩ := hfetch ⟨page + 1⟩ w.state
      rcases hc : r.call category ⟨page + 1⟩ w with ⟨⟨resp1, _ | err⟩, w1⟩
      · rw [hc] at hfst hfet
        simp only at hfst hfet
        rw [← hfst] at hN hfet
        simp only at hN hfet
        obtain ⟨evs, htrace, hpages, hcat, hout⟩ :=
          ih (page + 1) resp1 (prds ++ resp1.Products) w1 hN (by omega) (by omega)
        refine ⟨⟨category, page + 1, resp1, none⟩ :: evs, ?_, ?_, ?_, ?_⟩
        · rw [htrace, hfet]
          simp
        · have hsub : N.val - page.val = (N.val - (page + 1).val) + 1 := by omega
          rw [List.map_cons, hpages, hsub, List.range'_succ, hv]
        · intro ev hev
          rcases List.mem_cons.mp hev with h1 | h2
          · rw [h1]
          · exact hcat ev h2
        · rw [hout, fetched_cons, List.append_assoc]
      · rw [hc] at hfst
        rw [← hfst] at herr
        cases herr
    · have hnot : ¬ page.val < N.val := by rw [← hlast]; exact hlt
      have h0 : N.val - page.val = 0 := by omega
      simp only [forPages, hlt, if_false]
      exact ⟨[], by simp, by simp [h0], by simp, by simp [fetched_nil]⟩

/-! ## Claims on the aggregation -/

/-- C2. Against an adapter whose fetch of the category always succeeds and always reports
the last page `N >= 1`, the walk of the category issues exactly `N` fetches, all of
that category, for the pages `1, 2, ..., N` in that order, and returns without an error
the products of the `N` responses in page order. -/
theorem loadProductsFromCategory_pages {σ : Type} (r : Retailer σ) (category : String)
    (N : Uint) (w : World σ) (hN : 1 ≤ N.val)
    (hfetch : ∀ o s, (r.LoadProducts category o s).1.2 = none ∧
      (r.LoadProducts category o s).1.1.LastPage = N) :
    ∃ evs : List Fetch,
      (loadProductsFromCategory r category w).2.fetches = w.fetches ++ evs ∧
      evs.length = N.val ∧
      evs.map (fun ev => ev.page.val) = List.range' 1 N.val ∧
      (∀ ev ∈ evs, ev.category = category) ∧
      (loadProductsFromCategory r category w).1 = (fetched evs, none) := by
  have hfst := call_fst r category ⟨1⟩ w
  have hfet := call_fetches r category ⟨1⟩ w
  obtain ⟨herr, hlast⟩ := hfetch ⟨1⟩ w.state
  have hNlt : N.val < uintSize := N.isLt
  rcases hc : r.call category ⟨1⟩ w with ⟨⟨resp1, _ | err⟩, w1⟩
  · rw [hc] at hfst hfet
    simp only at hfst hfet
    rw [← hfst] at hlast hfet
    simp only at hlast hfet
    obtain ⟨evs, htrace, hpages, hcat, hout⟩ :=
      forPages_const r category N hfetch (uintSize - 1 - (1 : Uint).val) 1 resp1
        resp1.Products w1 hlast (by rw [val_one]; exact hN) (by rw [val_one]; omega)
    have hmap : (({ category := category, page := 1, resp := resp1, err := none } : Fetch)
        :: evs).map (fun ev => ev.page.val) = List.range' 1 N.val := by
      have hsub : N.val = (N.val - (1 : Uint).val) + 1 := by rw [val_one]; omega
      rw [List.map_cons, hpages]
      conv_rhs => rw [hsub, List.range'_succ]
      simp only [val_one]
    refine ⟨⟨category, 1, resp1, none⟩ :: evs, ?_, ?_, hmap, ?_, ?_⟩
    · simp only [loadProductsFromCategory, hc]
      rw [htrace, hfet]
      simp
    · have hlen := congrArg List.length hmap
      rw [List.length_map, List.length_range'] at hlen
      exact hlen
    · intro ev hev
      rcases List.mem_cons.mp hev with h1 | h2
      · rw [h1]
      · exact hcat ev h2
    · simp only [loadProductsFromCategory, hc]
      rw [hout, fetched_cons]
  · rw [hc] at hfst
    rw [← hfst] at herr
    cases herr

/-- C2, at the test's stub: two pages. -/
theorem loadProductsFromCategory_pages_witness :
    ∃ evs : List Fetch,
      (loadProductsFromCategory stubTwoPages "guitars" World.start).2.fetches
        = World.start.fetches ++ evs ∧
      evs.length = (2 : Uint).val ∧
      evs.map (fun ev => ev.page.val) = List.range' 1 (2 : Uint).val ∧
      (∀ ev ∈ evs, ev.category = "guitars") ∧
      (loadProductsFromCategory stubTwoPages "guitars" World.start).1 = (fetched evs, none) :=
  loadProductsFromCategory_pages stubTwoPages "guitars" 2 World.start (by decide)
    (by
      intro o s
      by_cases h : o.Page = 2 <;> simp [stubTwoPages, h])

/-- C3. When every fetch of the adapter succeeds, each category returned by
`Categories()` is walked in the order given, no walk fails, and `LoadProducts` returns
without an error the walks' results appended in that order; this is the sequence of the
products of all responses in the order of the fetches. -/
theorem LoadProducts_concat {σ : Type} (r : Retailer σ) (w : World σ)
    (hfetch : ∀ c o s, (r.LoadProducts c o s).1.2 = none) :
    ∃ walks w1 evs,
      walkEach r (r.Categories w.state).1 ⟨(r.Categories w.state).2, w.fetches⟩
        = some (walks, w1) ∧
      LoadProducts r w = ((walks.flatten, none), w1) ∧
      w1.fetches = w.fetches ++ evs ∧ walks.flatten = fetched evs := by
  obtain ⟨walks, w1, hwalk, hloop⟩ := forCategories_walkEach r hfetch
    (r.Categories w.state).1 [] ⟨(r.Categories w.state).2, w.fetches⟩
  obtain ⟨evs, hran⟩ := LoadProducts_ran r w
  have hload : LoadProducts r w = ((walks.flatten, none), w1) := by
    simpa [LoadProducts] using hloop
  rw [hload] at hran
  exact ⟨walks, w1, evs, hwalk, hload, hran.1, hran.of_ok.1⟩

/-- C3, at the stub of the test with two categories of two pages: the result is the two
products of "basses" in page order, then the two products of "guitars" in page order. -/
theorem LoadProducts_concat_witness :
    walkEach stubTwoCategories ["basses", "guitars"] World.start
        = some ([[product "" "Fender" "AM Pro II P Bass MN MYS SFG LH" 0,
                  product "" "Sterling by Music Man" "StingRay 5 LH MN VSB" 0],
                 [product "" "Fender" "AM Pro II Tele LH MN MYST SFG" 0,
                  product "" "Schecter" "C-1 Hellraiser FR BCH LH" 0]],
                (LoadProducts stubTwoCategories World.start).2) ∧
      (LoadProducts stubTwoCategories World.start).1
        = ([product "" "Fender" "AM Pro II P Bass MN MYS SFG LH" 0,
            product "" "Sterling by Music Man" "StingRay 5 LH MN VSB" 0,
            product "" "Fender" "AM Pro II Tele LH MN MYST SFG" 0,
            product "" "Schecter" "C-1 Hellraiser FR BCH LH" 0], none) ∧
      (LoadProducts stubTwoCategories World.start).2.fetches.map
          (fun ev => (ev.category, ev.page.val))
        = [("basses", 1), ("basses", 2), ("guitars", 1), ("guitars", 2)] ∧
      (LoadProducts stubTwoCategories World.start).1.1
        = fetched (LoadProducts stubTwoCategories World.start).2.fetches := by
  obtain ⟨walks, w1, evs, hwalk, hload, htrace, hfetched⟩ :=
    LoadProducts_concat stubTwoCategories World.start (fun _ _ _ => rfl)
  have hw1 : w1 = (LoadProducts stubTwoCategories World.start).2 := by rw [hload]
  have hwalks : walks
      = [[product "" "Fender" "AM Pro II P Bass MN MYS SFG LH" 0,
          product "" "Sterling by Music Man" "StingRay 5 LH MN VSB" 0],
         [product "" "Fender" "AM Pro II Tele LH MN MYST SFG" 0,
          product "" "Schecter" "C-1 Hellraiser FR BCH LH" 0]] := by
    have h : (walkEach stubTwoCategories ["basses", "guitars"] World.start).map (fun out => out.1)
        = some walks := by
      have h2 : walkEach stubTwoCategories ["basses", "guitars"] World.start
          = some (walks, w1) := hwalk
      rw [h2]
      rfl
    have h3 : (walkEach stubTwoCategories ["basses", "guitars"] World.start).map
        (fun out => out.1)
        = some [[product "" "Fender" "AM Pro II P Bass MN MYS SFG LH" 0,
                 product "" "Sterling by Music Man" "StingRay 5 LH MN VSB" 0],
                [product "" "Fender" "AM Pro II Tele LH MN MYST SFG" 0,
                 product "" "Schecter" "C-1 Hellraiser FR BCH LH" 0]] := by decide
    rw [h3] at h
    exact (Option.some.inj h).symm
  have hevs : evs = (LoadProducts stubTwoCategories World.start).2.fetches := by
    rw [← hw1, htrace]
    rfl
  refine ⟨?_, ?_, by decide, ?_⟩
  · rw [← hw1, ← hwalks]
    exact hwalk
  · rw [hload, hwalks]
    rfl
  · rw [← hevs, ← hfetched, hload]

/-- C4. A fetch issued by `LoadProducts` that fails is the last fetch it issues, every
fetch before it succeeded, and `LoadProducts` returns the error of that fetch and no
product. -/
theorem LoadProducts_fetch_error {σ : Type} (r : Retailer σ) (w : World σ)
    (pre post : List Fetch) (ev : Fetch) (e : Error)
    (hsplit : (LoadProducts r w).2.fetches = w.fetches ++ (pre ++ ev :: post))
    (herr : ev.err = some e) :
    post = [] ∧ (∀ x ∈ pre, x.err = none) ∧ (LoadProducts r w).1 = ([], some e) := by
  obtain ⟨evs, hran⟩ := LoadProducts_ran r w
  have hevs : evs = pre ++ ev :: post := by
    have h := hran.1
    rw [hsplit] at h
    exact (List.append_cancel_left h).symm
  exact hran.last_failed hevs herr

/-- C4, at a stub whose fifth fetch would be the second page of the second category:
the fourth fetch fails. -/
theorem LoadProducts_fetch_error_witness :
    (LoadProducts stubFailing World.start).2.fetches.map (fun ev => (ev.category, ev.page.val))
        = [("basses", 1), ("basses", 2), ("guitars", 1), ("guitars", 2)] ∧
      (LoadProducts stubFailing World.start).1 = ([], some "could not fetch products") :=
  ⟨by decide,
    (LoadProducts_fetch_error stubFailing World.start
      [⟨"basses", 1, ⟨[product "" "Fender" "basses model" 0], 1, 2⟩, none⟩,
        ⟨"basses", 2, ⟨[product "" "Fender" "basses model" 0], 2, 2⟩, none⟩,
        ⟨"guitars", 1, ⟨[product "" "Fender" "guitars model" 0], 1, 2⟩, none⟩]
      [] ⟨"guitars", 2, ⟨[], 0, 0⟩, some "could not fetch products"⟩
      "could not fetch products" (by decide) rfl).2.2⟩

/-- The loop over the adapters, past the adapters that load without an error. -/
theorem forRetailers_append {σ : Type} (rest : List (Retailer σ)) :
    ∀ (pre : List (Retailer σ)) (prds : List Product) (w w1 : World σ)
      (outs : List (List Product)), loadEach pre w = some (outs, w1) →
      forRetailers (pre ++ rest) prds w = forRetailers rest (prds ++ outs.flatten) w1 := by
  intro pre
  induction pre with
  | nil =>
    intro prds w w1 outs h
    simp only [loadEach, Option.some.injEq, Prod.mk.injEq] at h
    obtain ⟨h1, h2⟩ := h
    subst h1 h2
    simp
  | cons r pre ih =>
    intro prds w w1 outs h
    rcases hc : LoadProducts r w with ⟨⟨p, _ | err⟩, w2⟩
    · simp only [loadEach, hc, Option.map_eq_some'] at h
      obtain ⟨⟨outs1, w3⟩, hrest, heq⟩ := h
      simp only [Prod.mk.injEq] at heq
      obtain ⟨h1, h2⟩ := heq
      subst h1 h2
      have h2 := ih (prds ++ p) w2 w3 outs1 hrest
      rw [List.cons_append, forRetailers, hc]
      simp only
      rw [h2]
      simp
    · simp [loadEach, hc] at h

/-- A run of the adapters in which one fails has a first adapter that fails, the adapters
before it loading without an error. -/
theorem loadEach_none {σ : Type} :
    ∀ (retailer : List (Retailer σ)) (w : World σ), loadEach retailer w = none →
      ∃ pre r post outs w1 e, retailer = pre ++ r :: post ∧
        loadEach pre w = some (outs, w1) ∧ (LoadProducts r w1).1.2 = some e := by
  intro retailer
  induction retailer with
  | nil => intro w h; simp [loadEach] at h
  | cons r rest ih =>
    intro w h
    rcases hc : LoadProducts r w with ⟨⟨p, _ | err⟩, w2⟩
    · simp only [loadEach, hc, Option.map_eq_none'] at h
      obtain ⟨pre, r1, post, outs, w1, e, hsplit, hpre, hfail⟩ := ih w2 h
      refine ⟨r :: pre, r1, post, p :: outs, w1, e, by rw [hsplit]; rfl, ?_, hfail⟩
      simp [loadEach, hc, hpre]
    · exact ⟨[], r, rest, [], w, err, rfl, rfl, by rw [hc]⟩

/-- C1. When the adapters before `r` load without an error and `LoadProducts` fails for
`r`, `UpdateRetailers` returns the error of `r`, the store is in the state it was in
before the call, and no `Upsert` call has been issued (the adapters after `r` are not
asked anything either). -/
theorem UpdateRetailers_load_error {σ τ : Type} (ps : ProductUpserter τ)
    (pre post : List (Retailer σ)) (r : Retailer σ) (w w1 : World σ) (sw : StoreWorld τ)
    (outs : List (List Product)) (e : Error)
    (hpre : loadEach pre w = some (outs, w1))
    (hfail : (LoadProducts r w1).1.2 = some e) :
    UpdateRetailers ps (pre ++ r :: post) w sw = (some e, (LoadProducts r w1).2, sw) := by
  rcases hc : LoadProducts r w1 with ⟨⟨p, _ | err⟩, w2⟩
  · rw [hc] at hfail
    cases hfail
  · rw [hc] at hfail
    simp only [Option.some.injEq] at hfail
    subst hfail
    simp [UpdateRetailers, forRetailers_append _ pre [] w w1 outs hpre, forRetailers, hc]

/-- C1, at the store of the tests, holding one product before the call: the first
adapter loads, the second fails; the store holds what it held, and no `Upsert` call is
recorded. -/
theorem UpdateRetailers_load_error_witness :
    UpdateRetailers testProductStore [stubTwoPages, stubFailing, stubBasses]
        World.start ⟨[jazzmaster], []⟩
      = (some "could not fetch products",
          (LoadProducts stubFailing (LoadProducts stubTwoPages World.start).2).2,
          ⟨[jazzmaster], []⟩) :=
  UpdateRetailers_load_error testProductStore [stubTwoPages] [stubBasses]
    stubFailing World.start (LoadProducts stubTwoPages World.start).2 ⟨[jazzmaster], []⟩
    [(LoadProducts stubTwoPages World.start).1.1] "could not fetch products"
    (by rfl) (by decide)

/-- C5. When every adapter of the list loads without an error, `UpdateRetailers` issues
one `Upsert` call, on the adapters' results appended in the order of the list, and
returns what that call returns. -/
theorem UpdateRetailers_upsert_once {σ τ : Type} (ps : ProductUpserter τ)
    (retailer : List (Retailer σ)) (w w1 : World σ) (sw : StoreWorld τ)
    (outs : List (List Product)) (hload : loadEach retailer w = some (outs, w1)) :
    UpdateRetailers ps retailer w sw
      = ((ps.Upsert outs.flatten sw.state).1, w1,
          ⟨(ps.Upsert outs.flatten sw.state).2, sw.upserts ++ [outs.flatten]⟩) := by
  have h := forRetailers_append [] retailer [] w w1 outs hload
  simp only [List.append_nil, List.nil_append] at h
  simp [UpdateRetailers, h, forRetailers, ProductUpserter.call]

/-- C5, at the test "store products for multiple retailers", with the store of the
tests. -/
theorem UpdateRetailers_upsert_once_witness :
    UpdateRetailers testProductStore [stubTwoPages, stubBasses] World.start ⟨[], []⟩
      = (none, (LoadProducts stubBasses (LoadProducts stubTwoPages World.start).2).2,
          ⟨[product "" "Fender" "AM Pro II Jazzmaster LH MN MYS" 0,
              product "" "Gretsch" "G2622LH Strml. DC CB Gunmetal" 0,
              product "" "Fender" "AM Pro II P Bass MN MYS SFG LH" 0],
            [[product "" "Fender" "AM Pro II Jazzmaster LH MN MYS" 0,
              product "" "Gretsch" "G2622LH Strml. DC CB Gunmetal" 0,
              product "" "Fender" "AM Pro II P Bass MN MYS SFG LH" 0]]⟩) :=
  UpdateRetailers_upsert_once testProductStore [stubTwoPages, stubBasses] World.start
    (LoadProducts stubBasses (LoadProducts stubTwoPages World.start).2).2
    ⟨[], []⟩
    [[product "" "Fender" "AM Pro II Jazzmaster LH MN MYS" 0,
        product "" "Gretsch" "G2622LH Strml. DC CB Gunmetal" 0],
      [product "" "Fender" "AM Pro II P Bass MN MYS SFG LH" 0]]
    (by rfl)

/-! ## The store: `Upsert` -/

theorem isSome_of_get {p : ProductStore} {k : String} (h : (p.get k).isSome = true) :
    p.products.isSome = true := by
  obtain ⟨_ | m⟩ := p
  · simp [ProductStore.get] at h
  · rfl

theorem mem_keys_iff_get (p : ProductStore) (k : String) :
    k ∈ p.keys ↔ (p.get k).isSome = true := by
  obtain ⟨_ | m⟩ := p
  · simp [ProductStore.keys, ProductStore.entries, ProductStore.get, List.keys]
  · simp only [ProductStore.keys, ProductStore.entries, ProductStore.get, AList.lookup_isSome]
    exact AList.mem_keys.symm

/-- The body of the loop panics on the `nil` map, and on no other. -/
theorem upsertOne_eq_none (now : Time) (p : ProductStore) (e : Product) :
    p.upsertOne now e = none ↔ p.products = none := by
  obtain ⟨_ | m⟩ := p <;> simp [ProductStore.upsertOne]

theorem upsertOne_isSome (now : Time) (p : ProductStore) (e : Product)
    (hmap : p.products.isSome = true) :
    ∃ p1, p.upsertOne now e = some p1 ∧ p1.products.isSome = true := by
  obtain ⟨_ | m⟩ := p
  · simp at hmap
  · exact ⟨_, rfl, rfl⟩

theorem get_upsertOne_same (now : Time) (p p1 : ProductStore) (e : Product)
    (h : p.upsertOne now e = some p1) :
    p1.get (buildProductKey e)
      = some { e with
          CreatedAt := if (p.get (buildProductKey e)).isNone then now else e.CreatedAt,
          UpdatedAt := now } := by
  obtain ⟨_ | m⟩ := p
  · simp [ProductStore.upsertOne] at h
  · simp only [ProductStore.upsertOne, Option.some.injEq] at h
    subst h
    simp only [ProductStore.get, AList.lookup_insert]
    split <;> rfl

theorem get_upsertOne_ne (now : Time) (p p1 : ProductStore) (e : Product) (k : String)
    (h : p.upsertOne now e = some p1) (hk : buildProductKey e ≠ k) : p1.get k = p.get k := by
  obtain ⟨_ | m⟩ := p
  · simp [ProductStore.upsertOne] at h
  · simp only [ProductStore.upsertOne, Option.some.injEq] at h
    subst h
    simp only [ProductStore.get]
    exact AList.lookup_insert_ne (Ne.symm hk)

theorem mem_keys_upsertOne (now : Time) (p p1 : ProductStore) (e : Product) (k : String)
    (h : p.upsertOne now e = some p1) :
    k ∈ p1.keys ↔ k = buildProductKey e ∨ k ∈ p.keys := by
  rw [mem_keys_iff_get, mem_keys_iff_get]
  by_cases hk : buildProductKey e = k
  · subst hk
    rw [get_upsertOne_same now p p1 e h]
    simp
  · rw [get_upsertOne_ne now p p1 e k h hk]
    constructor
    · intro h1; exact Or.inr h1
    · rintro (h1 | h1)
      · exact absurd h1.symm hk
      · exact h1

theorem Upsert_nil (p : ProductStore) (now : Time) :
    p.Upsert now [] = (Ended.returned none, p) := rfl

theorem Upsert_cons_some (p p1 : ProductStore) (now : Time) (e : Product) (l : List Product)
    (h : p.upsertOne now e = some p1) : p.Upsert now (e :: l) = p1.Upsert now l := by
  simp [ProductStore.Upsert, ProductStore.forProducts, h]

theorem Upsert_cons_none (p : ProductStore) (now : Time) (e : Product) (l : List Product)
    (h : p.upsertOne now e = none) :
    p.Upsert now (e :: l) = (Ended.panicked "assignment to entry in nil map", p) := by
  simp [ProductStore.Upsert, ProductStore.forProducts, h]

/-- On the `nil` map `Upsert` leaves the store as it is, and panics unless the batch is
empty. -/
theorem Upsert_of_nil (p : ProductStore) (now : Time) (hnil : p.products = none) :
    ∀ batch : List Product, (p.Upsert now batch).2 = p ∧
      (batch ≠ [] →
        (p.Upsert now batch).1 = Ended.panicked "assignment to entry in nil map") := by
  intro batch
  cases batch with
  | nil => exact ⟨rfl, fun h => absurd rfl h⟩
  | cons e l =>
    rw [Upsert_cons_none p now e l ((upsertOne_eq_none now p e).mpr hnil)]
    exact ⟨rfl, fun _ => rfl⟩

/-- On a map that is not `nil`, `Upsert` returns `nil` and the map is not `nil`
afterwards. -/
theorem Upsert_of_map (now : Time) :
    ∀ (batch : List Product) (p : ProductStore), p.products.isSome = true →
      (p.Upsert now batch).1 = Ended.returned none ∧
        (p.Upsert now batch).2.products.isSome = true := by
  intro batch
  induction batch with
  | nil => intro p hmap; exact ⟨rfl, hmap⟩
  | cons e l ih =>
    intro p hmap
    obtain ⟨p1, h1, hmap1⟩ := upsertOne_isSome now p e hmap
    rw [Upsert_cons_some p p1 now e l h1]
    exact ih p1 hmap1

theorem Upsert_append (now : Time) (l2 : List Product) :
    ∀ (l1 : List Product) (p : ProductStore),
      (p.Upsert now (l1 ++ l2)).2 = ((p.Upsert now l1).2.Upsert now l2).2 := by
  intro l1
  induction l1 with
  | nil => intro p; rfl
  | cons e t ih =>
    intro p
    cases h : p.upsertOne now e with
    | none =>
      have hnil := (upsertOne_eq_none now p e).mp h
      rw [List.cons_append, Upsert_cons_none p now e _ h, Upsert_cons_none p now e _ h]
      exact ((Upsert_of_nil p now hnil l2).1).symm
    | some p1 =>
      rw [List.cons_append, Upsert_cons_some p p1 now e _ h, Upsert_cons_some p p1 now e _ h]
      exact ih p1

/-- A batch without the key `k` leaves the record under `k` as it is. -/
theorem get_Upsert_of_not_mem (now : Time) (k : String) :
    ∀ (batch : List Product) (p : ProductStore), (∀ x ∈ batch, buildProductKey x ≠ k) →
      (p.Upsert now batch).2.get k = p.get k := by
  intro batch
  induction batch with
  | nil => intro p _; rfl
  | cons e l ih =>
    intro p h
    cases h1 : p.upsertOne now e with
    | none => rw [Upsert_cons_none p now e l h1]
    | some p1 =>
      rw [Upsert_cons_some p p1 now e l h1,
        ih p1 (fun x hx => h x (List.mem_cons_of_mem e hx))]
      exact get_upsertOne_ne now p p1 e k h1 (h e (List.mem_cons_self e l))

/-- The record under a key of the batch, on a map that is not `nil`: the last entry of
the batch with that key, stamped.  Its creation timestamp is `now` when the key was new
at that entry's turn and the timestamp the entry came with otherwise. -/
theorem get_Upsert_last (now : Time) (p : ProductStore) (pre post : List Product)
    (e : Product) (hmap : p.products.isSome = true)
    (hpost : ∀ x ∈ post, buildProductKey x ≠ buildProductKey e) :
    (p.Upsert now (pre ++ e :: post)).2.get (buildProductKey e)
      = some { e with
          CreatedAt :=
            if ((p.Upsert now pre).2.get (buildProductKey e)).isNone then now else e.CreatedAt,
          UpdatedAt := now } := by
  obtain ⟨p1, h1, _⟩ := upsertOne_isSome now (p.Upsert now pre).2 e
    (Upsert_of_map now pre p hmap).2
  rw [Upsert_append, Upsert_cons_some _ p1 now e post h1,
    get_Upsert_of_not_mem now _ post _ hpost]
  exact get_upsertOne_same now _ p1 e h1

/-- The keys after `Upsert` on a map that is not `nil`: the keys before and the keys of
the batch. -/
theorem mem_keys_Upsert (now : Time) (k : String) :
    ∀ (batch : List Product) (p : ProductStore), p.products.isSome = true →
      (k ∈ (p.Upsert now batch).2.keys ↔ k ∈ p.keys ∨ ∃ x ∈ batch, buildProductKey x = k) := by
  intro batch
  induction batch with
  | nil => intro p _; simp [Upsert_nil]
  | cons e l ih =>
    intro p hmap
    obtain ⟨p1, h1, hmap1⟩ := upsertOne_isSome now p e hmap
    rw [Upsert_cons_some p p1 now e l h1, ih p1 hmap1, mem_keys_upsertOne now p p1 e k h1]
    constructor
    · rintro ((h | h) | ⟨x, hx, hk⟩)
      · exact Or.inr ⟨e, List.mem_cons_self e l, h.symm⟩
      · exact Or.inl h
      · exact Or.inr ⟨x, List.mem_cons_of_mem e hx, hk⟩
    · rintro (h | ⟨x, hx, hk⟩)
      · exact Or.inl (Or.inr h)
      · rcases List.mem_cons.mp hx with h1 | h2
        · exact Or.inl (Or.inl (by rw [← hk, h1]))
        · exact Or.inr ⟨x, h2, hk⟩

/-- An entry of the batch with the key `k` has a last one. -/
theorem exists_last_with_key (k : String) :
    ∀ (batch : List Product), (∃ x ∈ batch, buildProductKey x = k) →
      ∃ pre e post, batch = pre ++ e :: post ∧ buildProductKey e = k ∧
        ∀ x ∈ post, buildProductKey x ≠ k := by
  intro batch
  induction batch with
  | nil => rintro ⟨x, hx, _⟩; cases hx
  | cons a l ih =>
    intro h
    by_cases hl : ∃ x ∈ l, buildProductKey x = k
    · obtain ⟨pre, e, post, hsplit, hk, hpost⟩ := ih hl
      exact ⟨a :: pre, e, post, by rw [hsplit]; rfl, hk, hpost⟩
    · obtain ⟨x, hx, hk⟩ := h
      rcases List.mem_cons.mp hx with h1 | h2
      · subst h1
        exact ⟨[], x, l, rfl, hk, fun y hy hyk => hl ⟨y, hy, hyk⟩⟩
      · exact absurd ⟨x, h2, hk⟩ hl

/-- C6 as amended: on a store whose map is not `nil`, `Upsert(batch)` returns `nil`, and
after it a key of the batch holds a record with the non-timestamp attributes of the last
entry of the batch with that key; a key that is not a key of the batch holds what it
held before the call, or nothing if it held nothing; the keys are the keys before the
call and the keys of the batch. -/
theorem Upsert_get (p : ProductStore) (now : Time) (batch : List Product) (k : String)
    (hmap : p.products.isSome = true) :
    (p.Upsert now batch).1 = Ended.returned none ∧
    (∀ pre e post, batch = pre ++ e :: post → buildProductKey e = k →
        (∀ x ∈ post, buildProductKey x ≠ k) →
        ∃ rec, (p.Upsert now batch).2.get k = some rec ∧ rec.attributes = e.attributes) ∧
    ((∀ x ∈ batch, buildProductKey x ≠ k) → (p.Upsert now batch).2.get k = p.get k) ∧
    (k ∈ (p.Upsert now batch).2.keys ↔ k ∈ p.keys ∨ ∃ x ∈ batch, buildProductKey x = k) := by
  refine ⟨(Upsert_of_map now batch p hmap).1, ?_, get_Upsert_of_not_mem now k batch p,
    mem_keys_Upsert now k batch p hmap⟩
  intro pre e post hsplit hk hpost
  subst hk hsplit
  exact ⟨_, get_Upsert_last now p pre post e hmap hpost, rfl⟩

/-- C6 as amended, at a batch that holds the key of `jazzmaster` twice. -/
theorem Upsert_get_witness :
    ∃ rec, (NewProductStore.Upsert 5
        [jazzmaster, telecaster, { jazzmaster with Category := "guitars" }]).2.get
          "Test-Fender-AM Pro II Jazzmaster LH MN MYS" = some rec ∧
      rec.attributes = ({ jazzmaster with Category := "guitars" } : Product).attributes :=
  (Upsert_get NewProductStore 5 [jazzmaster, telecaster, { jazzmaster with Category := "guitars" }]
    "Test-Fender-AM Pro II Jazzmaster LH MN MYS" rfl).2.1 [jazzmaster, telecaster]
    { jazzmaster with Category := "guitars" } [] rfl (by decide) (by simp)

/-- C6 fails as stated: `Load` of the JSON value `null` returns no error and leaves the
store with a `nil` map; on that store `Upsert` of a batch of one product panics, and the
key of the product holds no record afterwards. -/
theorem Upsert_on_nil_map :
    NewProductStore.Load Stream.null = (none, ⟨none⟩) ∧
      ((NewProductStore.Load Stream.null).2.Upsert 5 [jazzmaster]).1
        = Ended.panicked "assignment to entry in nil map" ∧
      ((NewProductStore.Load Stream.null).2.Upsert 5 [jazzmaster]).2.get
        (buildProductKey jazzmaster) = none := by
  refine ⟨rfl, by decide, by decide⟩

/-- A stored key stays stored. -/
theorem get_Upsert_isSome (now : Time) (p : ProductStore) (batch : List Product) (k : String)
    (h : (p.get k).isSome = true) : ((p.Upsert now batch).2.get k).isSome = true := by
  rw [← mem_keys_iff_get] at h ⊢
  exact (mem_keys_Upsert now k batch p (isSome_of_get ((mem_keys_iff_get p k).mp h))).mpr
    (Or.inl h)

/-- What `Upsert` does to the creation timestamp of a key that is stored already: the
record gets the creation timestamp that the last entry of the batch with that key came
with, whatever the stored one was. -/
theorem Upsert_createdAt_of_stored (now : Time) (p : ProductStore) (pre post : List Product)
    (e : Product) (hstored : (p.get (buildProductKey e)).isSome = true)
    (hpost : ∀ x ∈ post, buildProductKey x ≠ buildProductKey e) :
    ((p.Upsert now (pre ++ e :: post)).2.get (buildProductKey e)).map (fun rec => rec.CreatedAt)
      = some e.CreatedAt := by
  have h := get_Upsert_isSome now p pre _ hstored
  rw [get_Upsert_last now p pre post e (isSome_of_get hstored) hpost]
  rw [Option.isSome_iff_ne_none] at h
  have h2 : ((p.Upsert now pre).2.get (buildProductKey e)).isNone = false := by
    cases hg : (p.Upsert now pre).2.get (buildProductKey e) with
    | none => exact absurd hg h
    | some _ => rfl
  simp [h2]

/-- C7 fails on the code: a product stored at time 5 has the creation timestamp 5; after
a second `Upsert` of the same product as the adapter delivers it (creation timestamp
zero) at time 9, the stored creation timestamp is zero. -/
theorem Upsert_createdAt_not_kept :
    ((NewProductStore.Upsert 5 [jazzmaster]).2.get (buildProductKey jazzmaster)).map
        (fun rec => rec.CreatedAt) = some 5 ∧
      (((NewProductStore.Upsert 5 [jazzmaster]).2.Upsert 9 [jazzmaster]).2.get
        (buildProductKey jazzmaster)).map (fun rec => rec.CreatedAt) = some 0 := by
  decide

/-- The part of C8 that holds: a second `Upsert` of the same batch leaves the keys and,
under every key, the non-timestamp attributes as the first left them. -/
theorem Upsert_twice_attributes (p : ProductStore) (now1 now2 : Time) (batch : List Product)
    (k : String) :
    (k ∈ ((p.Upsert now1 batch).2.Upsert now2 batch).2.keys ↔ k ∈ (p.Upsert now1 batch).2.keys) ∧
    (((p.Upsert now1 batch).2.Upsert now2 batch).2.get k).map Product.attributes
      = ((p.Upsert now1 batch).2.get k).map Product.attributes := by
  cases hnil : p.products with
  | none =>
    rw [(Upsert_of_nil p now1 hnil batch).1, (Upsert_of_nil p now2 hnil batch).1]
    exact ⟨Iff.rfl, rfl⟩
  | some m =>
    have hmap : p.products.isSome = true := by rw [hnil]; rfl
    have hmap1 := (Upsert_of_map now1 batch p hmap).2
    constructor
    · rw [mem_keys_Upsert now2 k batch _ hmap1, mem_keys_Upsert now1 k batch p hmap]
      tauto
    · by_cases h : ∃ x ∈ batch, buildProductKey x = k
      · obtain ⟨pre, e, post, hsplit, hk, hpost⟩ := exists_last_with_key k batch h
        subst hk hsplit
        rw [get_Upsert_last now2 _ pre post e hmap1 hpost,
          get_Upsert_last now1 _ pre post e hmap hpost]
        rfl
      · rw [get_Upsert_of_not_mem now2 k batch _ (fun x hx hk => h ⟨x, hx, hk⟩)]

/-- C8 fails on the code: after `Upsert` of a batch at time 5 into the empty store and
again at time 9, `FindAll` returns a product that differs from the one it returned
after the first application in more than the update timestamp: its creation timestamp
went from 5 back to zero. -/
theorem Upsert_twice_FindAll_differs :
    ((NewProductStore.Upsert 5 [jazzmaster]).2.FindAll RangeOrder.asListed).1.1.map
        Product.withoutUpdatedAt = [{ jazzmaster with CreatedAt := 5 }] ∧
      (((NewProductStore.Upsert 5 [jazzmaster]).2.Upsert 9 [jazzmaster]).2.FindAll
        RangeOrder.asListed).1.1.map Product.withoutUpdatedAt = [jazzmaster] ∧
      ({ jazzmaster with CreatedAt := 5 } : Product) ≠ jazzmaster := by
  decide

/-! ## The store: `FindAll` -/

theorem Float64.lt_asymm (a b : Float64) (h : Float64.lt a b = true) :
    Float64.lt b a = false := by
  cases a <;> cases b <;> simp_all [Float64.lt]
  exact le_of_lt h

/-- Between two numbers, "not greater" is `<=`. -/
theorem Float64.le_of_not_lt (a b : Float64) (ha : a.isNaN = false) (hb : b.isNaN = false)
    (h : Float64.lt b a = false) : Float64.le a b = true := by
  cases a <;> cases b <;> simp_all [Float64.lt, Float64.le, Float64.isNaN]

theorem sinkLeft_perm {α : Type} (less : α → α → Bool) (x : α) :
    ∀ l : List α, (sinkLeft less x l).Perm (x :: l) := by
  intro l
  induction l with
  | nil => exact List.Perm.refl _
  | cons y ys ih =>
    by_cases h : less x y = true
    · simp only [sinkLeft, h, if_true]
      exact (List.Perm.cons y ih).trans (List.Perm.swap x y ys)
    · simp only [sinkLeft, h]
      exact List.Perm.refl _

theorem foldl_sinkLeft_perm {α : Type} (less : α → α → Bool) :
    ∀ (l sorted : List α),
      (l.foldl (fun sorted e => sinkLeft less e sorted) sorted).Perm (l ++ sorted) := by
  intro l
  induction l with
  | nil => intro sorted; exact List.Perm.refl _
  | cons x xs ih =>
    intro sorted
    simp only [List.foldl_cons]
    refine (ih (sinkLeft less x sorted)).trans ?_
    refine ((List.Perm.append_left xs (sinkLeft_perm less x sorted)).trans ?_)
    exact List.perm_middle

/-- The sort returns the elements it was given, each as often as given. -/
theorem sortSlice_perm {α : Type} (less : α → α → Bool) (l : List α) :
    (sortSlice less l).Perm l := by
  unfold sortSlice
  refine (List.reverse_perm _).trans ?_
  simpa using foldl_sinkLeft_perm less l []

theorem sinkLeft_chain {α : Type} (less : α → α → Bool)
    (hasym : ∀ a b, less a b = true → less b a = false) (x : α) :
    ∀ (l : List α) (z : α), less z x = false →
      List.Chain (fun a b => less a b = false) z l →
      List.Chain (fun a b => less a b = false) z (sinkLeft less x l) := by
  intro l
  induction l with
  | nil =>
    intro z hz _
    exact List.Chain.cons hz List.Chain.nil
  | cons y ys ih =>
    intro z hz hchain
    rw [List.chain_cons] at hchain
    by_cases h : less x y = true
    · simp only [sinkLeft, h, if_true]
      exact List.Chain.cons hchain.1 (ih y (hasym x y h) hchain.2)
    · simp only [sinkLeft, h]
      exact List.Chain.cons hz (List.Chain.cons (by simpa using h) hchain.2)

theorem sinkLeft_chain' {α : Type} (less : α → α → Bool)
    (hasym : ∀ a b, less a b = true → less b a = false) (x : α) (l : List α)
    (hl : List.Chain' (fun a b => less a b = false) l) :
    List.Chain' (fun a b => less a b = false) (sinkLeft less x l) := by
  cases l with
  | nil => exact List.chain'_singleton x
  | cons y ys =>
    by_cases h : less x y = true
    · simp only [sinkLeft, h, if_true]
      exact sinkLeft_chain less hasym x ys y (hasym x y h) hl
    · simp only [sinkLeft, h]
      exact List.chain'_cons.mpr ⟨by simpa using h, hl⟩

theorem foldl_sinkLeft_chain' {α : Type} (less : α → α → Bool)
    (hasym : ∀ a b, less a b = true → less b a = false) :
    ∀ (l sorted : List α), List.Chain' (fun a b => less a b = false) sorted →
      List.Chain' (fun a b => less a b = false)
        (l.foldl (fun sorted e => sinkLeft less e sorted) sorted) := by
  intro l
  induction l with
  | nil => intro sorted h; exact h
  | cons x xs ih =>
    intro sorted h
    exact ih _ (sinkLeft_chain' less hasym x sorted h)

/-- After the sort, with a comparison that never holds both ways, no element is less
than the element before it. -/
theorem sortSlice_chain' {α : Type} (less : α → α → Bool)
    (hasym : ∀ a b, less a b = true → less b a = false) (l : List α) :
    List.Chain' (fun a b => less b a = false) (sortSlice less l) := by
  unfold sortSlice
  rw [List.chain'_reverse]
  exact foldl_sinkLeft_chain' less hasym l [] List.chain'_nil

theorem chain'_getElem? {α : Type} (R : α → α → Prop) :
    ∀ (l : List α), List.Chain' R l → ∀ (i : Nat) (a b : α),
      l[i]? = some a → l[i + 1]? = some b → R a b := by
  intro l
  induction l with
  | nil => intro _ i a b h; simp at h
  | cons x t ih =>
    intro hchain i a b ha hb
    cases t with
    | nil => simp at hb
    | cons y t =>
      rw [List.chain'_cons] at hchain
      cases i with
      | zero =>
        simp only [List.getElem?_cons_zero, Option.some.injEq, zero_add,
          List.getElem?_cons_succ] at ha hb
        subst ha hb
        exact hchain.1
      | succ i =>
        rw [List.getElem?_cons_succ] at ha hb
        exact ih hchain.2 i a b ha hb

/-- The `range` loop of `FindAll` collects the records in the order of the visit. -/
theorem foldl_collect (l : List (Sigma fun _ : String => Product)) :
    ∀ prds : List Product,
      l.foldl (fun prds v => prds ++ [v.2]) prds = prds ++ l.map (fun v => v.2) := by
  induction l with
  | nil => intro prds; simp
  | cons v t ih => intro prds; simp [ih]

theorem FindAll_perm (p : ProductStore) (order : RangeOrder) :
    (p.FindAll order).1.1.Perm p.records := by
  simp only [ProductStore.FindAll, ProductStore.records, foldl_collect, List.nil_append]
  exact (sortSlice_perm _ _).trans ((order.perm p.entries).map _)

/-- In the result of `FindAll`, no price is less than the price before it. -/
theorem FindAll_chain' (p : ProductStore) (order : RangeOrder) :
    List.Chain' (fun a b : Product => Float64.lt b.Price a.Price = false)
      (p.FindAll order).1.1 := by
  simp only [ProductStore.FindAll]
  exact sortSlice_chain' (fun a b : Product => Float64.lt a.Price b.Price)
    (fun a b h => Float64.lt_asymm a.Price b.Price h) _

/-- C9 as amended: when no stored price is NaN, the result of `FindAll` is ascending by
price, whatever order the map was visited in. -/
theorem FindAll_ascending (p : ProductStore) (order : RangeOrder)
    (hnan : ∀ rec ∈ p.records, rec.Price.isNaN = false) :
    AscendingByPrice (p.FindAll order).1.1 := by
  intro i a b ha hb
  have hperm := FindAll_perm p order
  have hmema : a ∈ p.records := hperm.subset (List.getElem?_mem ha)
  have hmemb : b ∈ p.records := hperm.subset (List.getElem?_mem hb)
  exact Float64.le_of_not_lt a.Price b.Price (hnan a hmema) (hnan b hmemb)
    (chain'_getElem? _ _ (FindAll_chain' p order) i a b ha hb)

/-- C9 as amended, at a store of two products. -/
theorem FindAll_ascending_witness :
    AscendingByPrice
      ((NewProductStore.Upsert 5 [jazzmaster, telecaster]).2.FindAll RangeOrder.asListed).1.1 :=
  FindAll_ascending (NewProductStore.Upsert 5 [jazzmaster, telecaster]).2 RangeOrder.asListed
    (by decide)

/-- C9 fails as stated: with a product whose price is NaN in the store, the result of
`FindAll` is not ascending by price, in whichever of the two orders the two entries of
the map are visited. -/
theorem FindAll_not_ascending :
    ¬ AscendingByPrice
        ((NewProductStore.Upsert 5 [jazzmaster, unpriced]).2.FindAll RangeOrder.asListed).1.1 ∧
      ¬ AscendingByPrice
        ((NewProductStore.Upsert 5 [jazzmaster, unpriced]).2.FindAll RangeOrder.reversed).1.1 := by
  constructor
  · intro h
    have h0 := h 0 _ _ rfl rfl
    revert h0
    decide
  · intro h
    have h0 := h 0 _ _ rfl rfl
    revert h0
    decide

/-- C10. `FindAll` returns no error and the store's records, each once, in some order:
as many as the store has keys, no key being stored twice; the store is left as it
was. -/
theorem FindAll_records (p : ProductStore) (order : RangeOrder) :
    (p.FindAll order).1.2 = none ∧
      (p.FindAll order).1.1.Perm p.records ∧
      (p.FindAll order).1.1.length = p.keys.length ∧ p.keys.Nodup ∧
      (p.FindAll order).2 = p := by
  refine ⟨rfl, FindAll_perm p order, ?_, ?_, rfl⟩
  · rw [(FindAll_perm p order).length_eq]
    simp [ProductStore.records, ProductStore.keys, List.keys]
  · obtain ⟨_ | m⟩ := p
    · exact List.nodup_nil
    · exact m.keys_nodup

/-! ## The derived key -/

/-- Two texts that are cut at the first occurrence of a character agree before and
after the cut. -/
theorem append_cons_inj {α : Type} (c : α) :
    ∀ (a a1 b b1 : List α), c ∉ a → c ∉ a1 → a ++ c :: b = a1 ++ c :: b1 →
      a = a1 ∧ b = b1 := by
  intro a
  induction a with
  | nil =>
    intro a1 b b1 _ h1 h
    cases a1 with
    | nil => simpa using h
    | cons x t =>
      simp only [List.nil_append, List.cons_append, List.cons.injEq] at h
      exact absurd (by rw [h.1]; exact List.mem_cons_self x t) h1
  | cons y s ih =>
    intro a1 b b1 h0 h1 h
    cases a1 with
    | nil =>
      simp only [List.nil_append, List.cons_append, List.cons.injEq] at h
      exact absurd (by rw [← h.1]; exact List.mem_cons_self y s) h0
    | cons x t =>
      simp only [List.cons_append, List.cons.injEq] at h
      obtain ⟨h2, h3⟩ := ih t b b1 (fun hc => h0 (List.mem_cons_of_mem y hc))
        (fun hc => h1 (List.mem_cons_of_mem x hc)) h.2
      exact ⟨by rw [h.1, h2], h3⟩

theorem buildProductKey_data (p : Product) :
    (buildProductKey p).data
      = p.Retailer.data ++ '-' :: (p.Manufacturer.data ++ '-' :: p.Model.data) := by
  simp [buildProductKey, String.data_append]

/-- With no "-" in the retailers and manufacturers, equal keys come from equal
fields. -/
theorem buildProductKey_inj (p q : Product) (hpr : ¬ hasDash p.Retailer)
    (hpm : ¬ hasDash p.Manufacturer) (hqr : ¬ hasDash q.Retailer)
    (hqm : ¬ hasDash q.Manufacturer) (h : buildProductKey p = buildProductKey q) :
    p.Retailer = q.Retailer ∧ p.Manufacturer = q.Manufacturer ∧ p.Model = q.Model := by
  have hd := congrArg String.data h
  rw [buildProductKey_data, buildProductKey_data] at hd
  obtain ⟨h1, h2⟩ := append_cons_inj '-' _ _ _ _ hpr hqr hd
  obtain ⟨h3, h4⟩ := append_cons_inj '-' _ _ _ _ hpm hqm h2
  exact ⟨String.ext h1, String.ext h3, String.ext h4⟩

/-- C11. The derived key is the retailer, the manufacturer and the model joined by "-":
products that agree on the three fields have the same key whatever their other
attributes, and products with no "-" in any of the three fields have the same key only
if they agree on the three fields. -/
theorem buildProductKey_stable (p q : Product) :
    buildProductKey p = p.Retailer ++ "-" ++ p.Manufacturer ++ "-" ++ p.Model ∧
    (p.Retailer = q.Retailer → p.Manufacturer = q.Manufacturer → p.Model = q.Model →
      buildProductKey p = buildProductKey q) ∧
    (¬ hasDash p.Retailer → ¬ hasDash p.Manufacturer → ¬ hasDash p.Model →
      ¬ hasDash q.Retailer → ¬ hasDash q.Manufacturer → ¬ hasDash q.Model →
      buildProductKey p = buildProductKey q →
      p.Retailer = q.Retailer ∧ p.Manufacturer = q.Manufacturer ∧ p.Model = q.Model) := by
  refine ⟨rfl, ?_, ?_⟩
  · intro h1 h2 h3
    simp [buildProductKey, h1, h2, h3]
  · intro hpr hpm _ hqr hqm _ h
    exact buildProductKey_inj p q hpr hpm hqr hqm h

/-- C11, at two products that differ in price and timestamps only, and at two products
with different models. -/
theorem buildProductKey_stable_witness :
    buildProductKey jazzmaster = buildProductKey { jazzmaster with Price := Float64.nan } ∧
      buildProductKey jazzmaster ≠ buildProductKey telecaster :=
  ⟨(buildProductKey_stable jazzmaster { jazzmaster with Price := Float64.nan }).2.1 rfl rfl rfl,
    fun h => absurd
      ((buildProductKey_stable jazzmaster telecaster).2.2 (by decide) (by decide) (by decide)
        (by decide) (by decide) (by decide) h).2.2 (by decide)⟩

/-- C20 as amended.  Two products of one retailer with different manufacturer and model
can have the same key; and whenever two products of a batch have the same key and no
later entry of the batch has it, the store, if its map is not `nil`, holds after `Upsert`
one record under that key, with the non-timestamp attributes of the later of the two. -/
theorem buildProductKey_collision :
    (∃ p q : Product, p.Retailer = q.Retailer ∧
      (p.Manufacturer, p.Model) ≠ (q.Manufacturer, q.Model) ∧
      buildProductKey p = buildProductKey q) ∧
    ∀ (s : ProductStore) (now : Time) (pre mid post : List Product) (p q : Product),
      s.products.isSome = true →
      buildProductKey p = buildProductKey q →
      (∀ x ∈ post, buildProductKey x ≠ buildProductKey q) →
      ((s.Upsert now (pre ++ p :: (mid ++ q :: post))).2.keys.count (buildProductKey q) = 1 ∧
        ∃ rec, (s.Upsert now (pre ++ p :: (mid ++ q :: post))).2.get (buildProductKey q)
            = some rec ∧ rec.attributes = q.attributes) := by
  refine ⟨⟨modelWithDash, manufacturerWithDash, by decide, by decide, by decide⟩, ?_⟩
  intro s now pre mid post p q hmap _ hpost
  have hsplit : pre ++ p :: (mid ++ q :: post) = (pre ++ p :: mid) ++ q :: post := by simp
  constructor
  · apply List.count_eq_one_of_mem
    · obtain ⟨_ | m⟩ := (s.Upsert now (pre ++ p :: (mid ++ q :: post))).2
      · exact List.nodup_nil
      · exact m.keys_nodup
    · exact (mem_keys_Upsert now _ _ s hmap).mpr (Or.inr ⟨q, by simp, rfl⟩)
  · rw [hsplit]
    exact ⟨_, get_Upsert_last now s (pre ++ p :: mid) post q hmap hpost, rfl⟩

/-- C20 as amended, at the two products "A" / "B-C" and "A-B" / "C" of the retailer
"R". -/
theorem buildProductKey_collision_witness :
    buildProductKey modelWithDash = "R-A-B-C" ∧
      buildProductKey manufacturerWithDash = "R-A-B-C" ∧
      (NewProductStore.Upsert 5 [modelWithDash, manufacturerWithDash]).2.keys.count
        (buildProductKey manufacturerWithDash) = 1 ∧
      ∃ rec, (NewProductStore.Upsert 5 [modelWithDash, manufacturerWithDash]).2.get
          (buildProductKey manufacturerWithDash) = some rec ∧
        rec.attributes = manufacturerWithDash.attributes :=
  ⟨by decide, by decide,
    buildProductKey_collision.2 NewProductStore 5 [] [] [] modelWithDash manufacturerWithDash
      rfl (by decide) (by simp)⟩

/-- C20 fails as stated.  A batch holds the two products and, after them, a third with the
same key: the record under the key is the third product, stamped, whose retailer,
manufacturer and price are not those of the later of the two.  And on the store that
`Load` of `null` leaves, `Upsert` of the two products panics and no record is under the
key. -/
theorem Upsert_collision_not_later :
    buildProductKey thirdCollider = buildProductKey manufacturerWithDash ∧
      (NewProductStore.Upsert 5 [modelWithDash, manufacturerWithDash, thirdCollider]).2.get
        (buildProductKey manufacturerWithDash) = some { thirdCollider with UpdatedAt := 5 } ∧
      thirdCollider.Manufacturer ≠ manufacturerWithDash.Manufacturer ∧
      thirdCollider.Price ≠ manufacturerWithDash.Price ∧
      ((NewProductStore.Load Stream.null).2.Upsert 5 [modelWithDash, manufacturerWithDash]).1
        = Ended.panicked "assignment to entry in nil map" ∧
      ((NewProductStore.Load Stream.null).2.Upsert 5 [modelWithDash, manufacturerWithDash]).2.get
        (buildProductKey manufacturerWithDash) = none := by
  decide

/-! ## Where the category walk stops -/

/-- The page loop against an adapter whose fetches succeed: it fetches the pages that
follow `page` one after the other, and leaves after the first response whose last page
is not beyond the page just fetched. -/
theorem forPages_stop {σ : Type} (r : Retailer σ) (category : String)
    (hfetch : ∀ o s, (r.LoadProducts category o s).1.2 = none) :
    ∀ (fuel : Nat) (page : Uint) (resp : ProductResponse) (prds : List Product) (w : World σ),
      uintSize - 1 - page.val ≤ fuel →
      ∃ evs, (forPages r category fuel page resp prds w).2.fetches = w.fetches ++ evs ∧
        (forPages r category fuel page resp prds w).1 = (prds ++ fetched evs, none) ∧
        (resp.LastPage.val ≤ page.val ↔ evs = []) ∧
        ∀ (j : Nat) (ev : Fetch), evs[j]? = some ev →
          ev.page.val = page.val + 1 + j ∧ ev.category = category ∧
          (∃ s, ev.resp = (r.LoadProducts category ⟨ev.page⟩ s).1.1) ∧
          (ev.resp.LastPage.val ≤ page.val + 1 + j ↔ j + 1 = evs.length) := by
  intro fuel
  induction fuel with
  | zero =>
    intro page resp prds w hfuel
    have hlast : resp.LastPage.val < uintSize := resp.LastPage.isLt
    refine ⟨[], by simp [forPages], by simp [forPages, fetched_nil], ?_, ?_⟩
    · constructor
      · intro _; rfl
      · intro _; omega
    · intro j ev h; simp at h
  | succ fuel ih =>
    intro page resp prds w hfuel
    by_cases hlt : page < resp.LastPage
    · have hv := val_succ_of_lt hlt
      have hltv : page.val < resp.LastPage.val := hlt
      simp only [forPages, hlt, if_true]
      have hfst := call_fst r category ⟨page + 1⟩ w
      have hfet := call_fetches r category ⟨page + 1⟩ w
      have herr := hfetch ⟨page + 1⟩ w.state
      rcases hc : r.call category ⟨page + 1⟩ w with ⟨⟨resp1, _ | err⟩, w1⟩
      · rw [hc] at hfst hfet
        simp only at hfst hfet
        rw [← hfst] at hfet
        simp only at hfet
        obtain ⟨evs, htrace, hout, hnil, hevs⟩ :=
          ih (page + 1) resp1 (prds ++ resp1.Products) w1 (by omega)
        refine ⟨⟨category, page + 1, resp1, none⟩ :: evs, ?_, ?_, ?_, ?_⟩
        · rw [htrace, hfet]
          simp
        · rw [hout, fetched_cons, List.append_assoc]
        · constructor
          · intro h; omega
          · intro h; cases h
        · intro j ev hj
          cases j with
          | zero =>
            simp only [List.getElem?_cons_zero, Option.some.injEq] at hj
            subst hj
            refine ⟨by simp [hv], rfl, ⟨w.state, by rw [← hfst]⟩, ?_⟩
            simp only [Nat.add_zero, zero_add, List.length_cons]
            rw [hv] at hnil
            rw [hnil]
            constructor
            · intro h; rw [h]; rfl
            · intro h
              exact List.length_eq_zero.mp (by omega)
          | succ j =>
            rw [List.getElem?_cons_succ] at hj
            obtain ⟨h1, h2, h3, h4⟩ := hevs j ev hj
            refine ⟨by omega, h2, h3, ?_⟩
            rw [hv] at h4
            simp only [List.length_cons]
            constructor
            · intro h
              have := h4.mp (by omega)
              omega
            · intro h
              have := h4.mpr (by omega)
              omega
      · rw [hc] at hfst
        rw [← hfst] at herr
        cases herr
    · have hnot : ¬ page.val < resp.LastPage.val := hlt
      simp only [forPages, hlt, if_false]
      refine ⟨[], by simp, by simp [fetched_nil], ?_, ?_⟩
      · constructor
        · intro _; rfl
        · intro _; omega
      · intro j ev h; simp at h

/-- The walk of a category against an adapter whose fetches succeed: it returns without
an error the products of its fetches, which are at least one, ask for the pages
1, 2, 3, ... of the category in that order, and of which the last, and no earlier one,
got a response whose last page is not beyond the page asked for. -/
theorem loadProductsFromCategory_stop {σ : Type} (r : Retailer σ) (category : String)
    (w : World σ) (hfetch : ∀ o s, (r.LoadProducts category o s).1.2 = none) :
    ∃ evs : List Fetch,
      (loadProductsFromCategory r category w).2.fetches = w.fetches ++ evs ∧
      (loadProductsFromCategory r category w).1 = (fetched evs, none) ∧
      1 ≤ evs.length ∧
      ∀ (j : Nat) (ev : Fetch), evs[j]? = some ev →
        ev.page.val = j + 1 ∧ ev.category = category ∧
        (∃ s, ev.resp = (r.LoadProducts category ⟨ev.page⟩ s).1.1) ∧
        (ev.resp.LastPage.val ≤ j + 1 ↔ j + 1 = evs.length) := by
  have hfst := call_fst r category ⟨1⟩ w
  have hfet := call_fetches r category ⟨1⟩ w
  have herr := hfetch ⟨1⟩ w.state
  rcases hc : r.call category ⟨1⟩ w with ⟨⟨resp1, _ | err⟩, w1⟩
  · rw [hc] at hfst hfet
    simp only at hfst hfet
    rw [← hfst] at hfet
    simp only at hfet
    obtain ⟨evs, htrace, hout, hnil, hevs⟩ :=
      forPages_stop r category hfetch (uintSize - 1 - (1 : Uint).val) 1 resp1
        resp1.Products w1 (le_refl _)
    rw [val_one] at hnil hevs
    refine ⟨⟨category, 1, resp1, none⟩ :: evs, ?_, ?_, by simp, ?_⟩
    · simp only [loadProductsFromCategory, hc]
      rw [htrace, hfet]
      simp
    · simp only [loadProductsFromCategory, hc]
      rw [hout, fetched_cons]
    · intro j ev hj
      cases j with
      | zero =>
        simp only [List.getElem?_cons_zero, Option.some.injEq] at hj
        subst hj
        refine ⟨by simp [val_one], rfl, ⟨w.state, by rw [← hfst]⟩, ?_⟩
        simp only [zero_add, List.length_cons]
        rw [hnil]
        constructor
        · intro h; rw [h]; rfl
        · intro h
          exact List.length_eq_zero.mp (by omega)
      | succ j =>
        rw [List.getElem?_cons_succ] at hj
        obtain ⟨h1, h2, h3, h4⟩ := hevs j ev hj
        refine ⟨by omega, h2, h3, ?_⟩
        simp only [List.length_cons]
        constructor
        · intro h
          have := h4.mp (by omega)
          omega
        · intro h
          have := h4.mpr (by omega)
          omega
  · rw [hc] at hfst
    rw [← hfst] at herr
    cases herr

/-- C13 as amended: against an adapter whose fetches of the category succeed, the walk
counts the pages itself: the number of fetches it issues is the least `k >= 1` such that
the response to the `k`-th fetch reports a last page of at most `k`; the fetches ask for
the pages 1, ..., `k` in that order.  The current page of the responses plays no
part. -/
theorem loadProductsFromCategory_fetch_count {σ : Type} (r : Retailer σ) (category : String)
    (w : World σ) (hfetch : ∀ o s, (r.LoadProducts category o s).1.2 = none) :
    ∃ evs : List Fetch,
      (loadProductsFromCategory r category w).2.fetches = w.fetches ++ evs ∧
      1 ≤ evs.length ∧
      (∃ ev, evs[evs.length - 1]? = some ev ∧ ev.resp.LastPage.val ≤ evs.length) ∧
      (∀ (k : Nat) (ev : Fetch), 1 ≤ k → k < evs.length → evs[k - 1]? = some ev →
        k < ev.resp.LastPage.val) ∧
      ∀ (j : Nat) (ev : Fetch), evs[j]? = some ev → ev.page.val = j + 1 := by
  obtain ⟨evs, htrace, _, hlen, hevs⟩ := loadProductsFromCategory_stop r category w hfetch
  refine ⟨evs, htrace, hlen, ?_, ?_, fun j ev hj => (hevs j ev hj).1⟩
  · have hlt : evs.length - 1 < evs.length := by omega
    refine ⟨evs[evs.length - 1], List.getElem?_eq_getElem hlt, ?_⟩
    have h := (hevs (evs.length - 1) _ (List.getElem?_eq_getElem hlt)).2.2.2
    have h2 := h.mpr (by omega)
    omega
  · intro k ev hk hklt hev
    have h := (hevs (k - 1) ev hev).2.2.2
    by_contra hcon
    have h2 := h.mp (by omega)
    omega

/-- C13 as amended, at a stub that reports the current page 2 and the last page 2 in
every response. -/
theorem loadProductsFromCategory_fetch_count_witness :
    ∃ evs : List Fetch,
      (loadProductsFromCategory stubLastPageFirst "guitars" World.start).2.fetches
        = World.start.fetches ++ evs ∧
      1 ≤ evs.length ∧
      (∃ ev, evs[evs.length - 1]? = some ev ∧ ev.resp.LastPage.val ≤ evs.length) ∧
      (∀ (k : Nat) (ev : Fetch), 1 ≤ k → k < evs.length → evs[k - 1]? = some ev →
        k < ev.resp.LastPage.val) ∧
      ∀ (j : Nat) (ev : Fetch), evs[j]? = some ev → ev.page.val = j + 1 :=
  loadProductsFromCategory_fetch_count stubLastPageFirst "guitars" World.start
    (fun _ _ => rfl)

/-- C13 fails as stated: the first response of the stub reports a current page equal to
its last page, and the walk issues two fetches, not one. -/
theorem loadProductsFromCategory_ignores_CurrentPage :
    ((loadProductsFromCategory stubLastPageFirst "guitars" World.start).2.fetches.map
        fun ev => (ev.page.val, ev.resp.CurrentPage.val, ev.resp.LastPage.val))
      = [(1, 2, 2), (2, 2, 2)] := by
  decide

/-- C19. Against an adapter whose fetches of the category succeed and whose responses
all report a last page of at most `B`, the walk returns: it issues at least one and at
most `max 1 B` fetches, for the pages 1, 2, 3, ... in that order, and the fetch after
which it stops is the first whose response reports a last page that is not beyond the
page asked for. -/
theorem loadProductsFromCategory_bounded {σ : Type} (r : Retailer σ) (category : String)
    (w : World σ) (B : Nat)
    (hfetch : ∀ o s, (r.LoadProducts category o s).1.2 = none ∧
      (r.LoadProducts category o s).1.1.LastPage.val ≤ B) :
    ∃ evs : List Fetch,
      (loadProductsFromCategory r category w).2.fetches = w.fetches ++ evs ∧
      (loadProductsFromCategory r category w).1 = (fetched evs, none) ∧
      1 ≤ evs.length ∧ evs.length ≤ max 1 B ∧
      ∀ (j : Nat) (ev : Fetch), evs[j]? = some ev →
        ev.page.val = j + 1 ∧ (ev.resp.LastPage.val ≤ j + 1 ↔ j + 1 = evs.length) := by
  obtain ⟨evs, htrace, hout, hlen, hevs⟩ :=
    loadProductsFromCategory_stop r category w (fun o s => (hfetch o s).1)
  refine ⟨evs, htrace, hout, hlen, ?_, fun j ev hj => ⟨(hevs j ev hj).1, (hevs j ev hj).2.2.2⟩⟩
  by_cases h2 : evs.length ≤ 1
  · exact le_trans h2 (le_max_left 1 B)
  · have hlt : evs.length - 2 < evs.length := by omega
    obtain ⟨_, _, ⟨s, hs⟩, hiff⟩ := hevs (evs.length - 2) _ (List.getElem?_eq_getElem hlt)
    have hB := (hfetch ⟨(evs[evs.length - 2]).page⟩ s).2
    rw [← hs] at hB
    have hnot : ¬ (evs[evs.length - 2]).resp.LastPage.val ≤ evs.length - 2 + 1 := by
      intro hle
      have := hiff.mp hle
      omega
    exact le_trans (by omega) (le_max_right 1 B)

/-- C19, at a stub that reports the last page 5 on page 1 and the last page 2 after
that: the walk stops after the second fetch. -/
theorem loadProductsFromCategory_bounded_witness :
    (loadProductsFromCategory stubShrinking "guitars" World.start).2.fetches.length = 2 ∧
    ∃ evs : List Fetch,
      (loadProductsFromCategory stubShrinking "guitars" World.start).2.fetches
        = World.start.fetches ++ evs ∧
      (loadProductsFromCategory stubShrinking "guitars" World.start).1 = (fetched evs, none) ∧
      1 ≤ evs.length ∧ evs.length ≤ max 1 5 ∧
      ∀ (j : Nat) (ev : Fetch), evs[j]? = some ev →
        ev.page.val = j + 1 ∧ (ev.resp.LastPage.val ≤ j + 1 ↔ j + 1 = evs.length) :=
  ⟨by decide,
    loadProductsFromCategory_bounded stubShrinking "guitars" World.start 5
      (by
        intro o s
        by_cases h : o.Page = 1
        · simp only [stubShrinking, h, if_true, true_and]
          decide
        · simp only [stubShrinking, h, if_false, true_and]
          decide)⟩

/-! ## The store: timestamps of `Upsert` -/

/-- The part of C14 on the update timestamp: on a map that is not `nil`, the record
under a key of the batch has the update timestamp `now`. -/
theorem Upsert_updatedAt (p : ProductStore) (now : Time) (batch : List Product) (k : String)
    (hmap : p.products.isSome = true) (h : ∃ x ∈ batch, buildProductKey x = k) :
    ((p.Upsert now batch).2.get k).map (fun rec => rec.UpdatedAt) = some now := by
  obtain ⟨pre, e, post, hsplit, hk, hpost⟩ := exists_last_with_key k batch h
  subst hk hsplit
  rw [get_Upsert_last now p pre post e hmap hpost]
  rfl

/-- The part of C14 on a new key that the batch holds once: on a map that is not `nil`,
its record has the creation timestamp `now`. -/
theorem Upsert_createdAt_of_new_once (p : ProductStore) (now : Time) (pre post : List Product)
    (e : Product) (hmap : p.products.isSome = true)
    (hnew : p.get (buildProductKey e) = none)
    (hpre : ∀ x ∈ pre, buildProductKey x ≠ buildProductKey e)
    (hpost : ∀ x ∈ post, buildProductKey x ≠ buildProductKey e) :
    ((p.Upsert now (pre ++ e :: post)).2.get (buildProductKey e)).map
      (fun rec => rec.CreatedAt) = some now := by
  rw [get_Upsert_last now p pre post e hmap hpost, get_Upsert_of_not_mem now _ pre p hpre,
    hnew]
  rfl

/-- C14 fails on the code: a batch at time 5 that holds twice a key that is new to the
store leaves under that key a record with the update timestamp 5 and the creation
timestamp zero, the one the second entry came with. -/
theorem Upsert_createdAt_of_new_twice :
    NewProductStore.get (buildProductKey jazzmaster) = none ∧
      ((NewProductStore.Upsert 5 [jazzmaster, jazzmaster]).2.get
        (buildProductKey jazzmaster)).map (fun rec => (rec.CreatedAt, rec.UpdatedAt))
        = some (0, 5) := by
  decide

/-! ## The store: ties in `FindAll` -/

theorem Float64.less_trans (a b c : Float64) (h1 : Float64.lt a b = true)
    (h2 : Float64.lt b c = true) : Float64.lt a c = true := by
  cases a <;> cases b <;> cases c <;> simp_all [Float64.lt]
  exact lt_trans h1 h2

/-- Of two different numbers, the one that is not greater is less. -/
theorem Float64.lt_of_not_lt_of_ne (a b : Float64) (ha : a.isNaN = false)
    (hb : b.isNaN = false) (h : Float64.lt b a = false) (hne : a ≠ b) :
    Float64.lt a b = true := by
  cases a <;> cases b <;> simp_all [Float64.lt, Float64.isNaN]
  exact lt_of_le_of_ne h hne

/-- Adjacent elements related by `S`, all pairs related by `N`, and `R` transitive
where it follows from `S` and `N`: all pairs are related by `R`. -/
theorem pairwise_of_chain' {α : Type} (S N R : α → α → Prop)
    (hR : ∀ a b, S a b → N a b → R a b) (htrans : ∀ a b c, R a b → R b c → R a c) :
    ∀ l : List α, List.Chain' S l → List.Pairwise N l → List.Pairwise R l := by
  intro l
  induction l with
  | nil => intro _ _; exact List.Pairwise.nil
  | cons x t ih =>
    intro hS hN
    rw [List.pairwise_cons] at hN
    have hS2 : List.Chain' S t := hS.tail
    have hRt := ih hS2 hN.2
    rw [List.pairwise_cons]
    refine ⟨?_, hRt⟩
    cases t with
    | nil => intro y hy; cases hy
    | cons y0 t1 =>
      rw [List.chain'_cons] at hS
      have hx0 : R x y0 := hR x y0 hS.1 (hN.1 y0 (List.mem_cons_self y0 t1))
      rw [List.pairwise_cons] at hRt
      intro y hy
      rcases List.mem_cons.mp hy with h1 | h2
      · rw [h1]; exact hx0
      · exact htrans x y0 y hx0 (hRt.1 y h2)

/-- With stored prices that are numbers and differ from one another, every price in the
result of `FindAll` is less than all prices after it. -/
theorem FindAll_strictly_ascending (p : ProductStore) (order : RangeOrder)
    (hnan : ∀ rec ∈ p.records, rec.Price.isNaN = false)
    (hdistinct : (p.records.map fun rec => rec.Price).Nodup) :
    List.Pairwise (fun a b : Product => Float64.lt a.Price b.Price = true)
      (p.FindAll order).1.1 := by
  have hperm := FindAll_perm p order
  have hne : List.Pairwise (fun a b : Product => a.Price ≠ b.Price) (p.FindAll order).1.1 := by
    have h1 : ((p.FindAll order).1.1.map fun rec => rec.Price).Nodup :=
      ((hperm.map _).nodup_iff).mpr hdistinct
    exact List.pairwise_map.mp h1
  have hnan2 : List.Pairwise (fun a b : Product => a.Price.isNaN = false ∧ b.Price.isNaN = false)
      (p.FindAll order).1.1 := by
    rw [List.pairwise_iff_forall_sublist]
    intro a b hab
    exact ⟨hnan a (hperm.subset (hab.subset (by simp))),
      hnan b (hperm.subset (hab.subset (by simp)))⟩
  exact pairwise_of_chain' (fun a b : Product => Float64.lt b.Price a.Price = false)
    (fun a b : Product =>
      a.Price ≠ b.Price ∧ a.Price.isNaN = false ∧ b.Price.isNaN = false)
    (fun a b : Product => Float64.lt a.Price b.Price = true)
    (fun a b hS hN => Float64.lt_of_not_lt_of_ne a.Price b.Price hN.2.1 hN.2.2 hS hN.1)
    (fun a b c h1 h2 => Float64.less_trans a.Price b.Price c.Price h1 h2)
    _ (FindAll_chain' p order) (hne.and hnan2)

/-- C15 as amended: when the stored prices are numbers and no two stored products have
the same price, `FindAll` returns the same sequence whatever the order in which the map
is visited, so that two calls with no write in between return the same sequence. -/
theorem FindAll_deterministic (p : ProductStore) (order1 order2 : RangeOrder)
    (hnan : ∀ rec ∈ p.records, rec.Price.isNaN = false)
    (hdistinct : (p.records.map fun rec => rec.Price).Nodup) :
    (p.FindAll order1).1.1 = (p.FindAll order2).1.1 := by
  haveI : IsAntisymm Product (fun a b : Product => Float64.lt a.Price b.Price = true) :=
    ⟨fun a b h1 h2 => by
      have := Float64.lt_asymm a.Price b.Price h1
      rw [h2] at this
      cases this⟩
  exact List.eq_of_perm_of_sorted
    ((FindAll_perm p order1).trans (FindAll_perm p order2).symm)
    (FindAll_strictly_ascending p order1 hnan hdistinct)
    (FindAll_strictly_ascending p order2 hnan hdistinct)

/-- C15 as amended, at a store of two products with different prices. -/
theorem FindAll_deterministic_witness :
    ((NewProductStore.Upsert 5 [jazzmaster, telecaster]).2.FindAll RangeOrder.asListed).1.1
      = ((NewProductStore.Upsert 5 [jazzmaster, telecaster]).2.FindAll
          RangeOrder.reversed).1.1 :=
  FindAll_deterministic (NewProductStore.Upsert 5 [jazzmaster, telecaster]).2
    RangeOrder.asListed RangeOrder.reversed (by decide) (by decide)

/-- C15 fails as stated: with two products of the same price in the store, two visits
of the map in different orders give `FindAll` results in different orders. -/
theorem FindAll_tie_order :
    ((NewProductStore.Upsert 5 [jazzmaster, samePrice]).2.FindAll RangeOrder.asListed).1.1
      ≠ ((NewProductStore.Upsert 5 [jazzmaster, samePrice]).2.FindAll
          RangeOrder.reversed).1.1 := by
  decide

/-! ## The store: `Load` -/

/-- The decoder on members that all convert: each is stored, in turn. -/
theorem decodeMembers_ok (l : List (Sigma fun _ : String => Product)) :
    ∀ (saved : Option Error) (m : ProductMap),
      decodeMembers (l.map fun e => Member.ok e.1 e.2) saved m
        = (saved, l.foldl (fun m e => m.insert e.1 e.2) m) := by
  induction l with
  | nil => intro saved m; rfl
  | cons e t ih =>
    intro saved m
    simp only [List.map_cons, decodeMembers, List.foldl_cons]
    exact ih saved _

/-- The record under a key after entries with different keys have been stored one by
one: the entry with that key, or what the map held. -/
theorem lookup_foldl_insert (k : String) :
    ∀ (l : List (Sigma fun _ : String => Product)) (m : ProductMap), l.NodupKeys →
      (l.foldl (fun m e => m.insert e.1 e.2) m).lookup k
        = (l.dlookup k).orElse fun _ => m.lookup k := by
  intro l
  induction l with
  | nil => intro m _; rfl
  | cons e t ih =>
    intro m hnd
    rw [List.nodupKeys_cons] at hnd
    rw [List.foldl_cons, ih _ hnd.2]
    by_cases hk : k = e.1
    · subst hk
      have hnone : List.dlookup e.1 t = none := List.dlookup_eq_none.mpr hnd.1
      rw [hnone]
      obtain ⟨a, b⟩ := e
      simp [AList.lookup_insert, List.dlookup_cons_eq]
    · rw [AList.lookup_insert_ne hk, List.dlookup_cons_ne t e hk]

/-- Reading the map that the decoder works on: the map of the store, or a new map when
that is `nil`. -/
theorem lookup_getD (p : ProductStore) (k : String) :
    (p.products.getD ∅).lookup k = p.get k := by
  obtain ⟨_ | m⟩ := p <;> rfl

/-- After `Load` of a snapshot of `C`: under each key the record of `C`, and where `C`
has none, the record the store held. -/
theorem get_Load_of_encodes (p : ProductStore) (r : Stream) (C : ProductMap)
    (h : r.encodes C) :
    (p.Load r).1 = none ∧
      ∀ k, (p.Load r).2.get k = (C.lookup k).orElse fun _ => p.get k := by
  obtain ⟨l, hperm, hr⟩ := h
  subst hr
  have hnd : l.NodupKeys := (List.perm_nodupKeys hperm).mpr C.nodupKeys
  simp only [ProductStore.Load, jsonDecode, decodeMembers_ok, ProductStore.get, true_and]
  intro k
  rw [lookup_foldl_insert k l _ hnd, List.perm_dlookup k hnd C.nodupKeys hperm, lookup_getD]
  rfl

/-- C12 as amended: `Load` of a well-formed snapshot of a collection `C` succeeds and
merges `C` into the store: every key of `C` maps to the record of `C`, and every key that
`C` does not have keeps the record it had, or stays absent; into an empty store, the
collection becomes `C`. -/
theorem Load_merges (p : ProductStore) (r : Stream) (C : ProductMap) (h : r.encodes C) :
    (p.Load r).1 = none ∧
    (∀ k v, C.lookup k = some v → (p.Load r).2.get k = some v) ∧
    (∀ k, C.lookup k = none → (p.Load r).2.get k = p.get k) ∧
    (p.keys = [] → ∀ k, (p.Load r).2.get k = C.lookup k) := by
  obtain ⟨hok, hget⟩ := get_Load_of_encodes p r C h
  refine ⟨hok, ?_, ?_, ?_⟩
  · intro k v hv
    rw [hget k, hv]
    rfl
  · intro k hnone
    rw [hget k, hnone]
    rfl
  · intro hempty k
    have hnone : p.get k = none := by
      have hnot : ¬ k ∈ p.keys := by rw [hempty]; simp
      rw [mem_keys_iff_get] at hnot
      cases hg : p.get k with
      | none => rfl
      | some v => rw [hg] at hnot; exact absurd rfl hnot
    rw [hget k, hnone]
    cases C.lookup k <;> rfl

/-- C12 as amended, at the snapshot of a store that holds `telecaster`, loaded into a
store that holds `jazzmaster`. -/
theorem Load_merges_witness :
    ((NewProductStore.Upsert 5 [jazzmaster]).2.Load
        (Stream.object [Member.ok (buildProductKey telecaster) telecaster])).1 = none ∧
      ((NewProductStore.Upsert 5 [jazzmaster]).2.Load
        (Stream.object [Member.ok (buildProductKey telecaster) telecaster])).2.get
          (buildProductKey telecaster) = some telecaster :=
  ⟨(Load_merges (NewProductStore.Upsert 5 [jazzmaster]).2
      (Stream.object [Member.ok (buildProductKey telecaster) telecaster])
      (AList.insert (buildProductKey telecaster) telecaster ∅)
      ⟨[⟨buildProductKey telecaster, telecaster⟩], List.Perm.refl _, rfl⟩).1,
    (Load_merges (NewProductStore.Upsert 5 [jazzmaster]).2
      (Stream.object [Member.ok (buildProductKey telecaster) telecaster])
      (AList.insert (buildProductKey telecaster) telecaster ∅)
      ⟨[⟨buildProductKey telecaster, telecaster⟩], List.Perm.refl _, rfl⟩).2.1
      (buildProductKey telecaster) telecaster (by decide)⟩

/-- C12 fails as stated: the snapshot of the collection that holds `telecaster` only, as
a store that took it at time 5 keeps it, is loaded without an error into a store that
holds `jazzmaster`, and the key of `jazzmaster`, which the snapshot does not have, is
still stored afterwards. -/
theorem Load_keeps_other_keys :
    (Stream.object
        [Member.ok (buildProductKey telecaster)
          { telecaster with CreatedAt := 5, UpdatedAt := 5 }]).encodes
      (AList.insert (buildProductKey telecaster)
        { telecaster with CreatedAt := 5, UpdatedAt := 5 } ∅) ∧
      (AList.insert (buildProductKey telecaster)
        ({ telecaster with CreatedAt := 5, UpdatedAt := 5 } : Product)
        (∅ : ProductMap)).lookup (buildProductKey jazzmaster) = none ∧
      ((NewProductStore.Upsert 5 [jazzmaster]).2.Load
        (Stream.object
          [Member.ok (buildProductKey telecaster)
            { telecaster with CreatedAt := 5, UpdatedAt := 5 }])).1 = none ∧
      ((NewProductStore.Upsert 5 [jazzmaster]).2.Load
        (Stream.object
          [Member.ok (buildProductKey telecaster)
            { telecaster with CreatedAt := 5, UpdatedAt := 5 }])).2.keys
        = [buildProductKey telecaster, buildProductKey jazzmaster] := by
  refine ⟨⟨[⟨buildProductKey telecaster, { telecaster with CreatedAt := 5, UpdatedAt := 5 }⟩],
    List.Perm.refl _, rfl⟩, by decide, by decide, by decide⟩

/-- On a stream that is rejected as a whole, `Load` returns an error and leaves the store
as it was. -/
theorem Load_rejected (p : ProductStore) (r : Stream) (h : r.rejected = true) :
    (p.Load r).1.isSome = true ∧ (p.Load r).2 = p := by
  cases r with
  | broken err => exact ⟨rfl, rfl⟩
  | null => simp [Stream.rejected] at h
  | other err => exact ⟨rfl, rfl⟩
  | object members => simp [Stream.rejected] at h

/-- The decoder on the members of an object: it returns the first error, the one kept
before or the one of the first member that does not convert, and has stored every
member, in turn. -/
theorem decodeMembers_eq :
    ∀ (l : List Member) (saved : Option Error) (m : ProductMap),
      decodeMembers l saved m
        = (saved.orElse fun _ => firstError l, l.foldl (fun m x => m.insert x.key x.value) m) := by
  intro l
  induction l with
  | nil => intro saved m; cases saved <;> rfl
  | cons x t ih =>
    intro saved m
    cases x with
    | ok key value =>
      simp only [decodeMembers, ih, List.foldl_cons, firstError, Member.err, Member.key,
        Member.value]
      cases saved <;> rfl
    | mismatch key value err =>
      simp only [decodeMembers, ih, List.foldl_cons, firstError, Member.err, Member.key,
        Member.value]
      cases saved <;> rfl

/-- The record under a key after members have been stored one by one: the product of the
last member with that key, or what the map held. -/
theorem lookup_foldl_members (k : String) :
    ∀ (l : List Member) (m : ProductMap),
      (l.foldl (fun m x => m.insert x.key x.value) m).lookup k
        = (storedUnder k l).orElse fun _ => m.lookup k := by
  intro l
  induction l with
  | nil => intro m; rfl
  | cons x t ih =>
    intro m
    rw [List.foldl_cons, ih]
    simp only [storedUnder]
    cases storedUnder k t with
    | some v => rfl
    | none =>
      by_cases hk : x.key = k
      · subst hk
        simp [AList.lookup_insert]
      · simp [hk, AList.lookup_insert_ne (Ne.symm hk)]

/-- On a JSON object, `Load` returns the error of the first member that does not convert,
if there is one, and stores every member: under each key of a member the product of the
last member with that key, under every other key what the store held. -/
theorem Load_object (p : ProductStore) (members : List Member) :
    (p.Load (Stream.object members)).1 = firstError members ∧
      ∀ k, (p.Load (Stream.object members)).2.get k
        = (storedUnder k members).orElse fun _ => p.get k := by
  simp only [ProductStore.Load, jsonDecode, decodeMembers_eq]
  refine ⟨rfl, ?_⟩
  intro k
  rw [← lookup_getD p k, ← lookup_foldl_members]
  rfl

/-- C16 as amended.  On a stream that is rejected as a whole (no complete JSON value, or a
value that is neither an object nor `null`), `Load` returns an error and leaves the
collection as it was.  On a JSON object with a member whose JSON type does not fit,
`Load` returns the error of the first such member, and every member of the object is in
the store: under each key of a member the product decoded for the last member with that
key, under every other key what the store held. -/
theorem Load_on_error (p : ProductStore) :
    (∀ r : Stream, r.rejected = true → (p.Load r).1.isSome = true ∧ (p.Load r).2 = p) ∧
    (∀ (members : List Member) (err : Error), firstError members = some err →
      (p.Load (Stream.object members)).1 = some err ∧
        ∀ k, (p.Load (Stream.object members)).2.get k
          = (storedUnder k members).orElse fun _ => p.get k) := by
  refine ⟨fun r h => Load_rejected p r h, ?_⟩
  intro members err herr
  obtain ⟨h1, h2⟩ := Load_object p members
  exact ⟨by rw [h1, herr], h2⟩

/-- C16 as amended, at a stream that breaks off and at an object whose second member is a
number, both loaded into a store that holds `jazzmaster`. -/
theorem Load_on_error_witness :
    ((NewProductStore.Upsert 5 [jazzmaster]).2.Load (Stream.broken "unexpected EOF")).2
        = (NewProductStore.Upsert 5 [jazzmaster]).2 ∧
      ((NewProductStore.Upsert 5 [jazzmaster]).2.Load (Stream.object
        [Member.ok (buildProductKey telecaster) telecaster,
          Member.mismatch "b" Product.zero "cannot unmarshal number"])).1
        = some "cannot unmarshal number" ∧
      ((NewProductStore.Upsert 5 [jazzmaster]).2.Load (Stream.object
        [Member.ok (buildProductKey telecaster) telecaster,
          Member.mismatch "b" Product.zero "cannot unmarshal number"])).2.get
            (buildProductKey telecaster) = some telecaster :=
  ⟨((Load_on_error (NewProductStore.Upsert 5 [jazzmaster]).2).1
      (Stream.broken "unexpected EOF") rfl).2,
    ((Load_on_error (NewProductStore.Upsert 5 [jazzmaster]).2).2
      [Member.ok (buildProductKey telecaster) telecaster,
        Member.mismatch "b" Product.zero "cannot unmarshal number"]
      "cannot unmarshal number" rfl).1,
    by
      rw [((Load_on_error (NewProductStore.Upsert 5 [jazzmaster]).2).2
        [Member.ok (buildProductKey telecaster) telecaster,
          Member.mismatch "b" Product.zero "cannot unmarshal number"]
        "cannot unmarshal number" rfl).2 (buildProductKey telecaster)]
      decide⟩

/-- C16 fails as stated: on an object whose first member converts and whose second is a
number instead of a product, `Load` into the new store returns the error, and afterwards
the first member is in the store, and the zero product under the key of the second. -/
theorem Load_partly_applied :
    (NewProductStore.Load (Stream.object
        [Member.ok (buildProductKey telecaster) telecaster,
          Member.mismatch "b" Product.zero "cannot unmarshal number"])).1
        = some "cannot unmarshal number" ∧
      (NewProductStore.Load (Stream.object
        [Member.ok (buildProductKey telecaster) telecaster,
          Member.mismatch "b" Product.zero "cannot unmarshal number"])).2.get
            (buildProductKey telecaster) = some telecaster ∧
      (NewProductStore.Load (Stream.object
        [Member.ok (buildProductKey telecaster) telecaster,
          Member.mismatch "b" Product.zero "cannot unmarshal number"])).2.get "b"
        = some Product.zero ∧
      NewProductStore.get (buildProductKey telecaster) = none := by
  decide

/-- The records of a store are what its keys hold. -/
theorem mem_records_iff (p : ProductStore) (x : Product) :
    x ∈ p.records ↔ ∃ k, p.get k = some x := by
  obtain ⟨_ | m⟩ := p
  · simp [ProductStore.records, ProductStore.entries, ProductStore.get]
  · simp only [ProductStore.records, ProductStore.entries, ProductStore.get, List.mem_map]
    constructor
    · rintro ⟨⟨k, v⟩, hmem, hx⟩
      simp only at hx
      subst hx
      exact ⟨k, AList.mem_lookup_iff.mpr hmem⟩
    · rintro ⟨k, hk⟩
      exact ⟨⟨k, x⟩, AList.mem_lookup_iff.mp hk, rfl⟩

/-! ## The adapter for musik-produktiv.de -/

/-- What `LoadProducts` of the adapter does with a listed item whose price text has no
number in it, on a page whose pagination it can read: it returns without an error, and
the response holds the zero product at the position of the item. -/
theorem MusikProduktiv.LoadProducts_item_error (lib : Strconv) (m : MusikProduktiv)
    (category : String) (doc : Document) (before after : List ItemNode) (s : ItemNode)
    (e : Error)
    (hpage : m.http ("https://www.musik-produktiv.de/" ++ category) = Page.document doc)
    (hitems : doc.items = before ++ s :: after)
    (hprice : (lib.ParseFloat32 (digitsOf s.price)).2 = some e)
    (hpagination : (MusikProduktiv.parsePagination lib doc).2.2 = none) :
    (m.LoadProducts lib category).1.2 = none ∧
      (m.LoadProducts lib category).1.1.Products.length = doc.items.length ∧
      (m.LoadProducts lib category).1.1.Products[before.length]? = some Product.zero := by
  have hitem : ∀ m1 : MusikProduktiv, m1.eachInstrument lib doc.title s = Product.zero := by
    intro m1
    rcases hp : lib.ParseFloat32 (digitsOf s.price) with ⟨f, _ | err⟩
    · rw [hp] at hprice
      cases hprice
    · simp [MusikProduktiv.eachInstrument, MusikProduktiv.parseProduct,
        MusikProduktiv.parsePrice, hp]
  rcases hpag : MusikProduktiv.parsePagination lib doc with ⟨cp, lp, _ | err⟩
  · simp only [MusikProduktiv.LoadProducts, hpage, hpag, List.length_map, true_and]
    rw [hitems, List.map_append, List.map_cons, List.getElem?_append_right (by simp),
      List.length_map, Nat.sub_self, List.getElem?_cons_zero, hitem]
  · rw [hpag] at hpagination
    cases hpagination

/-- C18 fails on the code: on a page with two listed items of which the second is priced
"auf Anfrage", `LoadProducts` of the adapter returns no error, and its response holds the
product of the first item followed by the zero product. -/
theorem MusikProduktiv_LoadProducts_placeholder :
    (musikProduktivOnRequest.LoadProducts strconvOnDigits "gitarren").1
      = ((⟨[⟨"Musik Produktiv", "Fender", "AM Pro II Jazzmaster LH MN MYS", "Gitarren", true,
              "", Float64.finite 1599, "/jazzmaster", "/j.jpg", 0, 0⟩,
            Product.zero], 1, 1⟩, none)) ∧
      (MusikProduktiv.parseProduct strconvOnDigits musikProduktivOnRequest
        ⟨"Gretsch G2622LH Strml. DC CB Gunmetal", "auf Anfrage", false, "/g2622",
          "/g.jpg"⟩).2 = some "strconv.ParseFloat: invalid syntax" := by
  decide

end Lefty
